import Mathlib

/-!
Verification of the schema-differencing and migration-planning engine of the
`hive-cli` repository (`src/lib/hive-capabilities/src/schema.rs`, duplicated in
`src/lib/hive-capabilities/src/db/write_schema_to_db.rs`).

The Rust code is embedded shallowly: `HashMap<String, Table>` becomes an
association list (iteration order of the map is an arbitrary list order, and
lookups are by key), `Vec` becomes `List`, and `String` formatting becomes
explicit concatenation.  `str::contains` / `str::ends_with` are embedded as
executable character-list scans.
-/

namespace HiveCli

/-- `listPrefixOf pat l` is true when `pat` is a prefix of `l` (character lists). -/
def listPrefixOf : List Char → List Char → Bool
  | [], _ => true
  | _ :: _, [] => false
  | a :: as, b :: bs => a == b && listPrefixOf as bs

/-- `listSubOf pat l` is true when `pat` occurs contiguously inside `l`. -/
def listSubOf (pat : List Char) : List Char → Bool
  | [] => listPrefixOf pat []
  | c :: cs => listPrefixOf pat (c :: cs) || listSubOf pat cs

/-- Embedding of Rust `str::contains(pat)` for string patterns. -/
def strContainsSub (s pat : String) : Bool :=
  listSubOf pat.data s.data

/-- Embedding of Rust `str::ends_with(suffix)`. -/
def strEndsWith (s suffix : String) : Bool :=
  listPrefixOf suffix.data.reverse s.data.reverse

-- ============ Data model (schema.rs type definitions) ============

structure Column where
  name : String
  data_type : String
  is_nullable : Bool
  default : Option String
deriving DecidableEq, Repr

structure ForeignKey where
  column : String
  referenced_table : String
  referenced_column : String
deriving DecidableEq, Repr

structure Index where
  name : String
  columns : List String
  is_unique : Bool
  index_type : String
deriving DecidableEq, Repr

structure Table where
  columns : List Column
  foreign_keys : List ForeignKey
  indexes : List Index
deriving DecidableEq, Repr

/-- `Schema.tables` embeds `HashMap<String, Table>` as an association list:
the list order stands for the map's (unspecified) iteration order, and all
key-based access goes through `lookupTable` / `containsKey`. -/
structure Schema where
  tables : List (String × Table)
deriving DecidableEq, Repr

/-- Embedding of `HashMap::get` on `Schema.tables`. -/
def lookupTable (s : Schema) (name : String) : Option Table :=
  (s.tables.find? (fun p => p.1 == name)).map (fun p => p.2)

/-- Embedding of `HashMap::contains_key` on `Schema.tables`. -/
def containsKey (s : Schema) (name : String) : Bool :=
  s.tables.any (fun p => p.1 == name)

-- ============ Diff functions ============

/-- `find_new_tables` from schema.rs: target keys absent from current. -/
def find_new_tables (current target : Schema) : List String :=
  (target.tables.map Prod.fst).filter (fun name => !containsKey current name)

/-- `find_new_columns` from schema.rs: target columns whose name is absent
from the current table (the Rust `HashSet` of names is name-membership). -/
def find_new_columns (current target : Table) : List Column :=
  target.columns.filter (fun c => !(current.columns.map Column.name).contains c.name)

/-- `columns_differ` from schema.rs. -/
def columns_differ (a b : Column) : Bool :=
  a.data_type != b.data_type || a.is_nullable != b.is_nullable || a.default != b.default

/-- `find_changed_columns` from schema.rs.  The Rust code collects
`current.columns` into a `HashMap` keyed by name (so the **last** column with a
given name wins), then looks each target column up; lookup of the last binding
is `find?` on the reversed list. -/
def find_changed_columns (current target : Table) : List (Column × Column) :=
  target.columns.filterMap (fun target_col =>
    match current.columns.reverse.find? (fun c => c.name == target_col.name) with
    | some current_col =>
        if columns_differ current_col target_col then some (current_col, target_col) else none
    | none => none)

/-- `find_new_indexes` from schema.rs. -/
def find_new_indexes (current : Option Table) (target : Table) : List Index :=
  let current_idx_names := match current with
    | some t => t.indexes.map Index.name
    | none => []
  target.indexes.filter (fun i => !current_idx_names.contains i.name)

/-- `find_dropped_indexes` from schema.rs. -/
def find_dropped_indexes (current target : Table) : List Index :=
  let target_idx_names := target.indexes.map Index.name
  current.indexes.filter (fun i => !target_idx_names.contains i.name)

/-- `find_new_foreign_keys` from schema.rs: identity is `(column, referenced_table)`. -/
def find_new_foreign_keys (current : Option Table) (target : Table) : List ForeignKey :=
  let current_fks : List (String × String) := match current with
    | some t => t.foreign_keys.map (fun f => (f.column, f.referenced_table))
    | none => []
  target.foreign_keys.filter (fun f => !current_fks.contains (f.column, f.referenced_table))

/-- `find_dropped_foreign_keys` from schema.rs. -/
def find_dropped_foreign_keys (current target : Table) : List ForeignKey :=
  let target_fks := target.foreign_keys.map (fun f => (f.column, f.referenced_table))
  current.foreign_keys.filter (fun f => !target_fks.contains (f.column, f.referenced_table))

-- ============ Dependency orderer ============

/-- One pass of the worklist in `order_tables_by_dependency`: the tables of
`remaining` whose foreign-key targets are all already ordered, outside the
remaining set, or self-references.  Tables missing from the schema are never
selected (the Rust `if let Some(table)` guard). -/
def orderRound (ordered remaining : List String) (schema : Schema) : List String :=
  remaining.filter (fun table_name =>
    match lookupTable schema table_name with
    | some table => table.foreign_keys.all (fun fk =>
        ordered.contains fk.referenced_table
        || !remaining.contains fk.referenced_table
        || fk.referenced_table == table_name)
    | none => false)

/-- The `while !remaining.is_empty()` loop of `order_tables_by_dependency`,
with explicit fuel (each productive pass removes at least one table, so
`tables.length` fuel is enough; on stall the remainder is flushed as in the
Rust `ordered.extend(remaining.drain())`). -/
def orderLoop (schema : Schema) : Nat → List String → List String → List String
  | 0, ordered, remaining => ordered ++ remaining
  | fuel + 1, ordered, remaining =>
    if remaining.isEmpty then ordered
    else
      let added := orderRound ordered remaining schema
      if added.isEmpty then ordered ++ remaining
      else orderLoop schema fuel (ordered ++ added)
        (remaining.filter (fun table_name => !added.contains table_name))

/-- `order_tables_by_dependency` from schema.rs. -/
def order_tables_by_dependency (tables : List String) (schema : Schema) : List String :=
  orderLoop schema tables.length [] tables

-- ============ SQL generation ============

/-- `map_data_type` from schema.rs. -/
def map_data_type (pg_type : String) : String :=
  match pg_type with
  | "character varying" => "VARCHAR(255)"
  | "timestamp without time zone" => "TIMESTAMP"
  | "timestamp with time zone" => "TIMESTAMPTZ"
  | _ => pg_type

/-- `format_column_def` from schema.rs. -/
def format_column_def (col : Column) : String :=
  let d := "\"" ++ col.name ++ "\" " ++ map_data_type col.data_type
  let d := if !col.is_nullable then d ++ " NOT NULL" else d
  match col.default with
  | some dv => if !strContainsSub dv "nextval" then d ++ (" DEFAULT " ++ dv) else d
  | none => d

/-- `generate_create_table` from schema.rs. -/
def generate_create_table (name : String) (table : Table) : String :=
  let columns := table.columns.map format_column_def
  let pk := table.indexes.find? (fun i => strEndsWith i.name "_pkey")
  let parts := match pk with
    | some pk_idx => columns ++ ["PRIMARY KEY (" ++ String.intercalate ", " pk_idx.columns ++ ")"]
    | none => columns
  "CREATE TABLE \"" ++ name ++ "\" (\n  " ++ String.intercalate ",\n  " parts ++ "\n)"

/-- `generate_add_column` from schema.rs. -/
def generate_add_column (table : String) (col : Column) : String :=
  let sql := "ALTER TABLE \"" ++ table ++ "\" ADD COLUMN \"" ++ col.name ++ "\" "
    ++ map_data_type col.data_type
  let sql := if !col.is_nullable then sql ++ " NOT NULL" else sql
  match col.default with
  | some dv => sql ++ (" DEFAULT " ++ dv)
  | none => sql

/-- `generate_alter_column` from schema.rs (the `_old` column is unused there too). -/
def generate_alter_column (table : String) (_old new : Column) : List String :=
  let type_stmt := "ALTER TABLE \"" ++ table ++ "\" ALTER COLUMN \"" ++ new.name
    ++ "\" TYPE " ++ map_data_type new.data_type ++ " USING \"" ++ new.name ++ "\"::"
    ++ map_data_type new.data_type
  let null_stmt := if new.is_nullable then
      "ALTER TABLE \"" ++ table ++ "\" ALTER COLUMN \"" ++ new.name ++ "\" DROP NOT NULL"
    else
      "ALTER TABLE \"" ++ table ++ "\" ALTER COLUMN \"" ++ new.name ++ "\" SET NOT NULL"
  let default_stmt := match new.default with
    | some dv =>
        "ALTER TABLE \"" ++ table ++ "\" ALTER COLUMN \"" ++ new.name ++ "\" SET DEFAULT " ++ dv
    | none =>
        "ALTER TABLE \"" ++ table ++ "\" ALTER COLUMN \"" ++ new.name ++ "\" DROP DEFAULT"
  [type_stmt, null_stmt, default_stmt]

/-- `generate_create_index` from schema.rs. -/
def generate_create_index (table : String) (idx : Index) : String :=
  let uniq := if idx.is_unique then "UNIQUE " else ""
  let columns := idx.columns.map (fun c => "\"" ++ c ++ "\"")
  "CREATE " ++ uniq ++ "INDEX \"" ++ idx.name ++ "\" ON \"" ++ table ++ "\" USING "
    ++ idx.index_type ++ " (" ++ String.intercalate ", " columns ++ ")"

/-- `generate_drop_index` from schema.rs. -/
def generate_drop_index (name : String) : String :=
  "DROP INDEX IF EXISTS \"" ++ name ++ "\""

/-- `generate_add_fk` from schema.rs. -/
def generate_add_fk (table : String) (fk : ForeignKey) : String :=
  let constraint_name := table ++ "_" ++ fk.column ++ "_fkey"
  "ALTER TABLE \"" ++ table ++ "\" ADD CONSTRAINT \"" ++ constraint_name
    ++ "\" FOREIGN KEY (\"" ++ fk.column ++ "\") REFERENCES \"" ++ fk.referenced_table
    ++ "\"(\"" ++ fk.referenced_column ++ "\")"

/-- `generate_drop_fk` from schema.rs. -/
def generate_drop_fk (table : String) (fk : ForeignKey) : String :=
  let constraint_name := table ++ "_" ++ fk.column ++ "_fkey"
  "ALTER TABLE \"" ++ table ++ "\" DROP CONSTRAINT IF EXISTS \"" ++ constraint_name ++ "\""

-- ============ The six phases of generate_migrations ============

/-- Phase 1 of `generate_migrations`: drop foreign keys that no longer exist. -/
def phase1 (current target : Schema) : List String :=
  current.tables.flatMap (fun p =>
    match lookupTable target p.1 with
    | some target_table =>
        (find_dropped_foreign_keys p.2 target_table).map (fun fk => generate_drop_fk p.1 fk)
    | none => [])

/-- Phase 2 of `generate_migrations`: create new tables in dependency order. -/
def phase2 (current target : Schema) : List String :=
  (order_tables_by_dependency (find_new_tables current target) target).filterMap
    (fun table_name => (lookupTable target table_name).map
      (fun table => generate_create_table table_name table))

/-- Phase 3 of `generate_migrations`: add then alter columns of existing tables. -/
def phase3 (current target : Schema) : List String :=
  target.tables.flatMap (fun p =>
    match lookupTable current p.1 with
    | some current_table =>
        (find_new_columns current_table p.2).map (fun col => generate_add_column p.1 col)
          ++ (find_changed_columns current_table p.2).flatMap
              (fun q => generate_alter_column p.1 q.1 q.2)
    | none => [])

/-- Phase 4 of `generate_migrations`: create new indexes, skipping `_pkey`. -/
def phase4 (current target : Schema) : List String :=
  target.tables.flatMap (fun p =>
    ((find_new_indexes (lookupTable current p.1) p.2).filter
        (fun idx => !strEndsWith idx.name "_pkey")).map
      (fun idx => generate_create_index p.1 idx))

/-- Phase 5 of `generate_migrations`: create new foreign keys. -/
def phase5 (current target : Schema) : List String :=
  target.tables.flatMap (fun p =>
    (find_new_foreign_keys (lookupTable current p.1) p.2).map
      (fun fk => generate_add_fk p.1 fk))

/-- Phase 6 of `generate_migrations`: drop removed indexes, skipping `_pkey`. -/
def phase6 (current target : Schema) : List String :=
  current.tables.flatMap (fun p =>
    match lookupTable target p.1 with
    | some target_table =>
        ((find_dropped_indexes p.2 target_table).filter
            (fun idx => !strEndsWith idx.name "_pkey")).map
          (fun idx => generate_drop_index idx.name)
    | none => [])

/-- `generate_migrations` from schema.rs: the six phases pushed into one plan,
in order. -/
def generate_migrations (current target : Schema) : List String :=
  phase1 current target ++ phase2 current target ++ phase3 current target
    ++ phase4 current target ++ phase5 current target ++ phase6 current target

-- ============ TOML schema loading ============

structure TomlTable where
  name : String
  column : List Column
  foreign_key : List ForeignKey
  index : List Index
deriving DecidableEq, Repr

structure TomlSchema where
  table : List TomlTable
deriving DecidableEq, Repr

/-- The `Table { columns, foreign_keys, indexes }` built per TOML block. -/
def tomlTableToTable (t : TomlTable) : Table :=
  { columns := t.column, foreign_keys := t.foreign_key, indexes := t.index }

/-- Embedding of `HashMap::insert` on the association list: the new binding
replaces any previous binding of the same key. -/
def hashMapInsert (tables : List (String × Table)) (name : String) (tab : Table) :
    List (String × Table) :=
  tables.filter (fun p => !(p.1 == name)) ++ [(name, tab)]

/-- `Schema::from_toml_schema` from schema.rs: insert each `[[table]]` block
into the map in file order. -/
def Schema.from_toml_schema (ts : TomlSchema) : Schema :=
  { tables := ts.table.foldl (fun acc t => hashMapInsert acc t.name (tomlTableToTable t)) [] }

-- ============ Spec-side definitions used by the claims ============

/-- Quoted identifier, as the spec's "wrapped in double quotes". -/
def quoteId (s : String) : String := "\"" ++ s ++ "\""

/-- The outbound foreign keys of a table name under a schema (claim C2). -/
def tableFks (schema : Schema) (t : String) : List ForeignKey :=
  match lookupTable schema t with
  | some tab => tab.foreign_keys
  | none => []

/-- The dependency condition of claim C2 for one table `tn` given the tables
`earlier` placed before it: every outbound foreign key points into `earlier`,
or outside the `input` list, or back at `tn` itself. -/
def fkSatisfied (input earlier : List String) (schema : Schema) (tn : String) : Bool :=
  match lookupTable schema tn with
  | some table => table.foreign_keys.all (fun fk =>
      earlier.contains fk.referenced_table
      || !input.contains fk.referenced_table
      || fk.referenced_table == tn)
  | none => true

/-- `depOrderOkAux input schema earlier out`: walking `out`, every table's
foreign keys satisfy `fkSatisfied` with respect to the tables before it. -/
def depOrderOkAux (input : List String) (schema : Schema) :
    List String → List String → Bool
  | _, [] => true
  | earlier, t :: rest =>
      fkSatisfied input earlier schema t && depOrderOkAux input schema (earlier ++ [t]) rest

/-- The ordering property claimed for `order_tables_by_dependency`. -/
def depOrderOk (input : List String) (schema : Schema) (out : List String) : Bool :=
  depOrderOkAux input schema [] out

/-- Foreign keys agree on the diff identity `(column, referenced_table)`;
`referenced_column` is unconstrained (claim C6). -/
def fkShapeEq (f g : ForeignKey) : Bool :=
  f.column == g.column && f.referenced_table == g.referenced_table

/-- Pointwise comparison of two lists by a Boolean relation. -/
def listShapeEq (eq : α → β → Bool) : List α → List β → Bool
  | [], [] => true
  | a :: as, b :: bs => eq a b && listShapeEq eq as bs
  | _, _ => false

/-- Tables identical except possibly in `referenced_column` fields (claim C6). -/
def tableShapeEq (t u : Table) : Bool :=
  t.columns == u.columns && t.indexes == u.indexes
    && listShapeEq fkShapeEq t.foreign_keys u.foreign_keys

/-- Schemas identical except possibly in `referenced_column` fields (claim C6). -/
def schemaShapeEq (s t : Schema) : Bool :=
  listShapeEq (fun p q => p.1 == q.1 && tableShapeEq p.2 q.2) s.tables t.tables

/-- Removal of a table from a schema (claim C9's frame property). -/
def removeTable (s : Schema) (name : String) : Schema :=
  { tables := s.tables.filter (fun p => !(p.1 == name)) }

/-- Removal of every column named `cname` from a table (claim C9). -/
def dropColumn (t : Table) (cname : String) : Table :=
  { t with columns := t.columns.filter (fun c => !(c.name == cname)) }

/-- Applying a table transformation at one key of a schema (claim C9). -/
def mapTable (s : Schema) (name : String) (f : Table → Table) : Schema :=
  { tables := s.tables.map (fun p => if p.1 == name then (p.1, f p.2) else p) }

/-- A statement produced by one of the seven emitters of the plan pipeline.
None of the emitters drops a table or a column (claim C9). -/
def fromPlanEmitters (s : String) : Prop :=
  (∃ t fk, s = generate_drop_fk t fk)
    ∨ (∃ n tab, s = generate_create_table n tab)
    ∨ (∃ t c, s = generate_add_column t c)
    ∨ (∃ t o n, s ∈ generate_alter_column t o n)
    ∨ (∃ t i, s = generate_create_index t i)
    ∨ (∃ t fk, s = generate_add_fk t fk)
    ∨ (∃ n, s = generate_drop_index n)

-- ============ Emitter normal forms (helper lemmas) ============

/-- Normal form of `format_column_def`. -/
theorem format_column_def_eq (col : Column) :
    format_column_def col =
      quoteId col.name ++ " " ++ map_data_type col.data_type
        ++ (if col.is_nullable then "" else " NOT NULL")
        ++ (match col.default with
            | some dv => if strContainsSub dv "nextval" then "" else " DEFAULT " ++ dv
            | none => "") := by
  rcases col with ⟨n, dt, nl, df⟩
  rcases df with _ | dv
  · cases nl <;>
      (apply String.ext
       simp [format_column_def, quoteId, String.data_append, List.append_assoc])
  · cases nl <;> cases hx : strContainsSub dv "nextval" <;>
      (apply String.ext
       simp [format_column_def, quoteId, hx, String.data_append, List.append_assoc])

/-- Normal form of `generate_add_column`. -/
theorem generate_add_column_eq (table : String) (col : Column) :
    generate_add_column table col =
      "ALTER TABLE " ++ quoteId table ++ " ADD COLUMN " ++ quoteId col.name ++ " "
          ++ map_data_type col.data_type
        ++ (if col.is_nullable then "" else " NOT NULL")
        ++ (match col.default with
            | some dv => " DEFAULT " ++ dv
            | none => "") := by
  rcases col with ⟨n, dt, nl, df⟩
  cases nl <;> rcases df with _ | dv <;>
    (apply String.ext
     simp [generate_add_column, quoteId, String.data_append, List.append_assoc])


/-- Normal form of `generate_alter_column`: three statements, the first with
the mapped type in both the TYPE token and the USING cast. -/
theorem generate_alter_column_eq (table : String) (o n : Column) :
    generate_alter_column table o n =
      ["ALTER TABLE " ++ quoteId table ++ " ALTER COLUMN " ++ quoteId n.name ++ " TYPE "
          ++ map_data_type n.data_type ++ " USING " ++ quoteId n.name ++ "::"
          ++ map_data_type n.data_type,
       if n.is_nullable then
         "ALTER TABLE " ++ quoteId table ++ " ALTER COLUMN " ++ quoteId n.name ++ " DROP NOT NULL"
       else
         "ALTER TABLE " ++ quoteId table ++ " ALTER COLUMN " ++ quoteId n.name ++ " SET NOT NULL",
       match n.default with
       | some dv => "ALTER TABLE " ++ quoteId table ++ " ALTER COLUMN " ++ quoteId n.name
           ++ " SET DEFAULT " ++ dv
       | none => "ALTER TABLE " ++ quoteId table ++ " ALTER COLUMN " ++ quoteId n.name
           ++ " DROP DEFAULT"] := by
  rcases n with ⟨nm, dt, nl, df⟩
  cases nl <;> rcases df with _ | dv <;>
    (simp only [generate_alter_column, List.cons.injEq, and_true, Bool.false_eq_true,
       if_false, if_true]
     refine ⟨?_, ?_, ?_⟩ <;>
       (apply String.ext
        simp [quoteId, String.data_append, List.append_assoc]))

/-- Normal form of `generate_create_table`: quoted table name, column
definitions, and a PRIMARY KEY clause whose column list is unquoted. -/
theorem generate_create_table_eq (name : String) (table : Table) :
    generate_create_table name table =
      "CREATE TABLE " ++ quoteId name ++ " (\n  "
        ++ String.intercalate ",\n  " (table.columns.map format_column_def
            ++ (match table.indexes.find? (fun i => strEndsWith i.name "_pkey") with
                | some pk_idx => ["PRIMARY KEY (" ++ String.intercalate ", " pk_idx.columns ++ ")"]
                | none => []))
        ++ "\n)" := by
  cases hpk : table.indexes.find? (fun i => strEndsWith i.name "_pkey") <;>
    (apply String.ext
     simp [generate_create_table, hpk, quoteId, String.data_append, List.append_assoc])

/-- Normal form of `generate_create_index`: its identifiers all quoted. -/
theorem generate_create_index_eq (table : String) (idx : Index) :
    generate_create_index table idx =
      "CREATE " ++ (if idx.is_unique then "UNIQUE " else "") ++ "INDEX " ++ quoteId idx.name
        ++ " ON " ++ quoteId table ++ " USING " ++ idx.index_type ++ " ("
        ++ String.intercalate ", " (idx.columns.map (fun c => quoteId c)) ++ ")" := by
  rcases idx with ⟨nm, cols, uniq, ty⟩
  cases uniq <;>
    (apply String.ext
     simp [generate_create_index, quoteId, String.data_append, List.append_assoc])

/-- Normal form of `generate_drop_index`. -/
theorem generate_drop_index_eq (name : String) :
    generate_drop_index name = "DROP INDEX IF EXISTS " ++ quoteId name := by
  apply String.ext
  simp [generate_drop_index, quoteId, String.data_append, List.append_assoc]

/-- Normal form of `generate_add_fk`. -/
theorem generate_add_fk_eq (table : String) (fk : ForeignKey) :
    generate_add_fk table fk =
      "ALTER TABLE " ++ quoteId table ++ " ADD CONSTRAINT "
        ++ quoteId (table ++ "_" ++ fk.column ++ "_fkey")
        ++ " FOREIGN KEY (" ++ quoteId fk.column ++ ") REFERENCES "
        ++ quoteId fk.referenced_table ++ "(" ++ quoteId fk.referenced_column ++ ")" := by
  apply String.ext
  simp [generate_add_fk, quoteId, String.data_append, List.append_assoc]

/-- Normal form of `generate_drop_fk`. -/
theorem generate_drop_fk_eq (table : String) (fk : ForeignKey) :
    generate_drop_fk table fk =
      "ALTER TABLE " ++ quoteId table ++ " DROP CONSTRAINT IF EXISTS "
        ++ quoteId (table ++ "_" ++ fk.column ++ "_fkey") := by
  apply String.ext
  simp [generate_drop_fk, quoteId, String.data_append, List.append_assoc]


theorem map_data_type_verbatim (pg : String)
    (h1 : pg ≠ "character varying") (h2 : pg ≠ "timestamp without time zone")
    (h3 : pg ≠ "timestamp with time zone") :
    map_data_type pg = pg := by
  unfold map_data_type
  split
  · exact absurd rfl h1
  · exact absurd rfl h2
  · exact absurd rfl h3
  · rfl


-- ============ Claims C3, C4, C8 ============

/-- C3, counterexample: the column list of the PRIMARY KEY clause inside
CREATE TABLE is emitted without double quotes, so not every column identifier
in an emitted statement is quoted. -/
theorem C3_counterexample :
    generate_create_table "users"
        ⟨[⟨"id", "integer", false, none⟩], [], [⟨"users_pkey", ["id"], true, "btree"⟩]⟩ =
      "CREATE TABLE \"users\" (\n  \"id\" integer NOT NULL,\n  PRIMARY KEY (id)\n)"
    ∧ strContainsSub (generate_create_table "users"
        ⟨[⟨"id", "integer", false, none⟩], [], [⟨"users_pkey", ["id"], true, "btree"⟩]⟩)
        "PRIMARY KEY (\"id\")" = false := by
  constructor
  · decide
  · decide

/-- C3 (amended): in every statement emitted by the differ/emitter, every
table and column identifier enters wrapped in double quotes (`quoteId`),
EXCEPT the column list of the PRIMARY KEY clause inside CREATE TABLE, which
is joined unquoted. -/
theorem C3_identifier_quoting (table name dropped : String) (col o n : Column)
    (idx : Index) (fk : ForeignKey) (tab : Table) :
    generate_create_table name tab =
      "CREATE TABLE " ++ quoteId name ++ " (\n  "
        ++ String.intercalate ",\n  " (tab.columns.map format_column_def
            ++ (match tab.indexes.find? (fun i => strEndsWith i.name "_pkey") with
                | some pk_idx =>
                    ["PRIMARY KEY (" ++ String.intercalate ", " pk_idx.columns ++ ")"]
                | none => []))
        ++ "\n)"
    ∧ format_column_def col =
      quoteId col.name ++ " " ++ map_data_type col.data_type
        ++ (if col.is_nullable then "" else " NOT NULL")
        ++ (match col.default with
            | some dv => if strContainsSub dv "nextval" then "" else " DEFAULT " ++ dv
            | none => "")
    ∧ generate_add_column table col =
      "ALTER TABLE " ++ quoteId table ++ " ADD COLUMN " ++ quoteId col.name ++ " "
          ++ map_data_type col.data_type
        ++ (if col.is_nullable then "" else " NOT NULL")
        ++ (match col.default with
            | some dv => " DEFAULT " ++ dv
            | none => "")
    ∧ generate_alter_column table o n =
      ["ALTER TABLE " ++ quoteId table ++ " ALTER COLUMN " ++ quoteId n.name ++ " TYPE "
          ++ map_data_type n.data_type ++ " USING " ++ quoteId n.name ++ "::"
          ++ map_data_type n.data_type,
       if n.is_nullable then
         "ALTER TABLE " ++ quoteId table ++ " ALTER COLUMN " ++ quoteId n.name ++ " DROP NOT NULL"
       else
         "ALTER TABLE " ++ quoteId table ++ " ALTER COLUMN " ++ quoteId n.name ++ " SET NOT NULL",
       match n.default with
       | some dv => "ALTER TABLE " ++ quoteId table ++ " ALTER COLUMN " ++ quoteId n.name
           ++ " SET DEFAULT " ++ dv
       | none => "ALTER TABLE " ++ quoteId table ++ " ALTER COLUMN " ++ quoteId n.name
           ++ " DROP DEFAULT"]
    ∧ generate_create_index table idx =
      "CREATE " ++ (if idx.is_unique then "UNIQUE " else "") ++ "INDEX " ++ quoteId idx.name
        ++ " ON " ++ quoteId table ++ " USING " ++ idx.index_type ++ " ("
        ++ String.intercalate ", " (idx.columns.map (fun c => quoteId c)) ++ ")"
    ∧ generate_drop_index dropped = "DROP INDEX IF EXISTS " ++ quoteId dropped
    ∧ generate_add_fk table fk =
      "ALTER TABLE " ++ quoteId table ++ " ADD CONSTRAINT "
        ++ quoteId (table ++ "_" ++ fk.column ++ "_fkey")
        ++ " FOREIGN KEY (" ++ quoteId fk.column ++ ") REFERENCES "
        ++ quoteId fk.referenced_table ++ "(" ++ quoteId fk.referenced_column ++ ")"
    ∧ generate_drop_fk table fk =
      "ALTER TABLE " ++ quoteId table ++ " DROP CONSTRAINT IF EXISTS "
        ++ quoteId (table ++ "_" ++ fk.column ++ "_fkey") :=
  ⟨generate_create_table_eq name tab, format_column_def_eq col,
   generate_add_column_eq table col, generate_alter_column_eq table o n,
   generate_create_index_eq table idx, generate_drop_index_eq dropped,
   generate_add_fk_eq table fk, generate_drop_fk_eq table fk⟩

/-- C4, counterexample: the type token of an ALTER COLUMN ... TYPE statement
IS normalized by `map_data_type` (here `character varying` becomes
`VARCHAR(255)`), contrary to the claim. -/
theorem C4_counterexample :
    generate_alter_column "t" ⟨"c", "text", true, none⟩ ⟨"c", "character varying", true, none⟩ =
      ["ALTER TABLE \"t\" ALTER COLUMN \"c\" TYPE VARCHAR(255) USING \"c\"::VARCHAR(255)",
       "ALTER TABLE \"t\" ALTER COLUMN \"c\" DROP NOT NULL",
       "ALTER TABLE \"t\" ALTER COLUMN \"c\" DROP DEFAULT"]
    ∧ map_data_type "character varying" ≠ "character varying" := by
  constructor
  · decide
  · decide

/-- C4 (amended): the `map_data_type` normalization (character varying to
VARCHAR(255), timestamp without time zone to TIMESTAMP, timestamp with time
zone to TIMESTAMPTZ, everything else verbatim) is applied in CREATE TABLE
column definitions, in ADD COLUMN statements, AND in the TYPE token and USING
cast of ALTER COLUMN ... TYPE statements; the nullability and default
alteration statements carry no type token at all. -/
theorem C4_type_normalization (pg table : String) (col o n : Column)
    (h1 : pg ≠ "character varying") (h2 : pg ≠ "timestamp without time zone")
    (h3 : pg ≠ "timestamp with time zone") :
    map_data_type "character varying" = "VARCHAR(255)"
    ∧ map_data_type "timestamp without time zone" = "TIMESTAMP"
    ∧ map_data_type "timestamp with time zone" = "TIMESTAMPTZ"
    ∧ map_data_type pg = pg
    ∧ format_column_def col =
      quoteId col.name ++ " " ++ map_data_type col.data_type
        ++ (if col.is_nullable then "" else " NOT NULL")
        ++ (match col.default with
            | some dv => if strContainsSub dv "nextval" then "" else " DEFAULT " ++ dv
            | none => "")
    ∧ generate_add_column table col =
      "ALTER TABLE " ++ quoteId table ++ " ADD COLUMN " ++ quoteId col.name ++ " "
          ++ map_data_type col.data_type
        ++ (if col.is_nullable then "" else " NOT NULL")
        ++ (match col.default with
            | some dv => " DEFAULT " ++ dv
            | none => "")
    ∧ generate_alter_column table o n =
      ["ALTER TABLE " ++ quoteId table ++ " ALTER COLUMN " ++ quoteId n.name ++ " TYPE "
          ++ map_data_type n.data_type ++ " USING " ++ quoteId n.name ++ "::"
          ++ map_data_type n.data_type,
       if n.is_nullable then
         "ALTER TABLE " ++ quoteId table ++ " ALTER COLUMN " ++ quoteId n.name ++ " DROP NOT NULL"
       else
         "ALTER TABLE " ++ quoteId table ++ " ALTER COLUMN " ++ quoteId n.name ++ " SET NOT NULL",
       match n.default with
       | some dv => "ALTER TABLE " ++ quoteId table ++ " ALTER COLUMN " ++ quoteId n.name
           ++ " SET DEFAULT " ++ dv
       | none => "ALTER TABLE " ++ quoteId table ++ " ALTER COLUMN " ++ quoteId n.name
           ++ " DROP DEFAULT"] :=
  ⟨by decide, by decide, by decide, map_data_type_verbatim pg h1 h2 h3,
   format_column_def_eq col, generate_add_column_eq table col,
   generate_alter_column_eq table o n⟩

/-- C4, witness: concrete instantiation of the amended normalization theorem
at the unmapped type `integer`. -/
theorem C4_witness : map_data_type "integer" = "integer" :=
  (C4_type_normalization "integer" "t" ⟨"c", "integer", true, none⟩
    ⟨"c", "integer", true, none⟩ ⟨"c", "integer", true, none⟩
    (by decide) (by decide) (by decide)).2.2.2.1

/-- C8: in a CREATE TABLE column definition the DEFAULT clause appears exactly
when the column has a default whose expression does not contain `nextval`; in
an ADD COLUMN statement the DEFAULT clause appears for every default, with no
`nextval` suppression; both carry NOT NULL exactly when the column is
non-nullable. -/
theorem C8_default_and_not_null_clauses (table : String) (col : Column) :
    format_column_def col =
      quoteId col.name ++ " " ++ map_data_type col.data_type
        ++ (if col.is_nullable then "" else " NOT NULL")
        ++ (match col.default with
            | some dv => if strContainsSub dv "nextval" then "" else " DEFAULT " ++ dv
            | none => "")
    ∧ generate_add_column table col =
      "ALTER TABLE " ++ quoteId table ++ " ADD COLUMN " ++ quoteId col.name ++ " "
          ++ map_data_type col.data_type
        ++ (if col.is_nullable then "" else " NOT NULL")
        ++ (match col.default with
            | some dv => " DEFAULT " ++ dv
            | none => "") :=
  ⟨format_column_def_eq col, generate_add_column_eq table col⟩

-- ============ Association-list lookup lemmas and claim C10 ============

/-- `find?` is unaffected by filtering with a predicate that keeps everything
the search predicate accepts. -/
theorem find?_filter_of_imp {α : Type} (p q : α → Bool) (l : List α)
    (h : ∀ a, p a = true → q a = true) :
    (l.filter q).find? p = l.find? p := by
  induction l with
  | nil => rfl
  | cons a as ih =>
    by_cases hp : p a = true
    · have hq := h a hp
      simp [List.filter_cons, hq, List.find?_cons, hp, ih]
    · have hp' : p a = false := by simpa using hp
      cases hq : q a <;> simp [List.filter_cons, hq, List.find?_cons, hp', ih]

/-- Key lookup after `hashMapInsert`: the inserted binding wins on its own
key; every other key is untouched. -/
theorem lookup_hashMapInsert (acc : List (String × Table)) (name n : String) (tab : Table) :
    lookupTable ⟨hashMapInsert acc name tab⟩ n =
      if name == n then some tab else lookupTable ⟨acc⟩ n := by
  unfold lookupTable hashMapInsert
  by_cases h : name = n
  · subst h
    have hnone : (acc.filter (fun p => !(p.1 == name))).find? (fun p => p.1 == name) = none := by
      rw [List.find?_eq_none]
      intro a ha
      have := List.of_mem_filter ha
      simpa using this
    rw [List.find?_append, hnone]
    simp
  · have hbne : (name == n) = false := by simpa using h
    rw [List.find?_append,
      find?_filter_of_imp (fun p => p.1 == n) (fun p => !(p.1 == name)) acc
        (by
          intro a ha
          have ha' : a.1 = n := by simpa using ha
          have : ¬ a.1 = name := by
            rw [ha']
            exact fun hh => h hh.symm
          simpa using this)]
    cases hf : acc.find? (fun p => p.1 == n) with
    | none => simp [hbne]
    | some v => simp [hbne]

/-- Folding `hashMapInsert` over a block list: lookup finds the conversion of
the LAST block with the key, falling back to the accumulator. -/
theorem lookup_foldl_insert (l : List TomlTable) (acc : List (String × Table)) (n : String) :
    lookupTable ⟨l.foldl (fun acc t => hashMapInsert acc t.name (tomlTableToTable t)) acc⟩ n =
      match l.reverse.find? (fun t => t.name == n) with
      | some t => some (tomlTableToTable t)
      | none => lookupTable ⟨acc⟩ n := by
  induction l generalizing acc with
  | nil => rfl
  | cons t ts ih =>
    rw [List.foldl_cons, ih]
    cases hf : ts.reverse.find? (fun u => u.name == n) with
    | some u => simp [List.reverse_cons, List.find?_append, hf]
    | none =>
      cases ht : (t.name == n) <;>
        simp [List.reverse_cons, List.find?_append, hf, lookup_hashMapInsert, ht]

/-- C10: when a parsed TOML schema holds several `[[table]]` blocks with the
same name, `Schema.from_toml_schema` succeeds (it is total) and the resulting
schema maps each name to the contents of the LAST block carrying it: lookup
equals `find?` on the reversed block list. -/
theorem C10_last_duplicate_block_wins (ts : TomlSchema) (n : String) :
    lookupTable (Schema.from_toml_schema ts) n =
      (ts.table.reverse.find? (fun t => t.name == n)).map (fun t => tomlTableToTable t) := by
  unfold Schema.from_toml_schema
  rw [lookup_foldl_insert]
  cases hf : ts.table.reverse.find? (fun t => t.name == n) with
  | some u => simp
  | none => simp [lookupTable]


-- ============ Diff-emptiness helper lemmas ============

/-- A key occurring among the firsts of an association list is contained. -/
theorem containsKey_of_mem_fst (l : List (String × Table)) (n : String)
    (h : n ∈ l.map Prod.fst) : containsKey ⟨l⟩ n = true := by
  rcases List.mem_map.mp h with ⟨p, hp, rfl⟩
  simp only [containsKey, List.any_eq_true]
  exact ⟨p, hp, by simp⟩

/-- With duplicate-free keys, `find?` on the key of a member returns that
member. -/
theorem find?_fst_of_nodup (l : List (String × Table)) :
    (l.map Prod.fst).Nodup → ∀ {n : String} {t : Table}, (n, t) ∈ l →
      l.find? (fun p => p.1 == n) = some (n, t) := by
  induction l with
  | nil => intro _ n t hmem; cases hmem
  | cons b bs ih =>
    intro hnd n t hmem
    have hnd' : (b.1 :: bs.map Prod.fst).Nodup := hnd
    have hnodup := List.nodup_cons.mp hnd'
    rcases List.mem_cons.mp hmem with heq | hmem'
    · rw [← heq]
      simp
    · have hb : (b.1 == n) = false := by
        have hn : n ∈ bs.map Prod.fst := by
          simpa using List.mem_map_of_mem Prod.fst hmem'
        have : ¬ b.1 = n := fun he => hnodup.1 (he ▸ hn)
        simpa using this
      simpa [List.find?_cons, hb] using ih hnodup.2 hmem'

/-- With duplicate-free keys, lookup of a member's key gives the member. -/
theorem lookup_mem_of_nodup (l : List (String × Table))
    (hnd : (l.map Prod.fst).Nodup) {n : String} {t : Table} (hmem : (n, t) ∈ l) :
    lookupTable ⟨l⟩ n = some t := by
  unfold lookupTable
  rw [find?_fst_of_nodup l hnd hmem]
  rfl

/-- With duplicate-free keys, `find?` on a key function finds the member
carrying that key. -/
theorem find?_key_of_nodup {α : Type} (key : α → String) (l : List α) :
    (l.map key).Nodup → ∀ {a : α}, a ∈ l →
      l.find? (fun x => key x == key a) = some a := by
  induction l with
  | nil => intro _ a hmem; cases hmem
  | cons b bs ih =>
    intro hnd a hmem
    have hnd' : (key b :: bs.map key).Nodup := hnd
    have hnodup := List.nodup_cons.mp hnd'
    rcases List.mem_cons.mp hmem with rfl | hmem'
    · simp
    · have hb : (key b == key a) = false := by
        have hn : key a ∈ bs.map key := List.mem_map_of_mem key hmem'
        have : ¬ key b = key a := fun he => hnodup.1 (he ▸ hn)
        simpa using this
      simpa [List.find?_cons, hb] using ih hnodup.2 hmem'

/-- `columns_differ` is irreflexive. -/
theorem columns_differ_self (c : Column) : columns_differ c c = false := by
  simp [columns_differ]

/-- No dropped foreign keys when every current identity pair persists. -/
theorem find_dropped_foreign_keys_subset (cur tgt : Table)
    (h : ∀ f ∈ cur.foreign_keys, (f.column, f.referenced_table) ∈
        tgt.foreign_keys.map (fun g => (g.column, g.referenced_table))) :
    find_dropped_foreign_keys cur tgt = [] := by
  unfold find_dropped_foreign_keys
  rw [List.filter_eq_nil_iff]
  intro f hf
  simpa [List.elem_iff] using h f hf

/-- No new foreign keys when every target identity pair is already present. -/
theorem find_new_foreign_keys_subset (ct tgt : Table)
    (h : ∀ f ∈ tgt.foreign_keys, (f.column, f.referenced_table) ∈
        ct.foreign_keys.map (fun g => (g.column, g.referenced_table))) :
    find_new_foreign_keys (some ct) tgt = [] := by
  unfold find_new_foreign_keys
  rw [List.filter_eq_nil_iff]
  intro f hf
  simpa [List.elem_iff] using h f hf

/-- No new columns when every target column name already exists. -/
theorem find_new_columns_subset (ct tgt : Table)
    (h : ∀ c ∈ tgt.columns, c.name ∈ ct.columns.map Column.name) :
    find_new_columns ct tgt = [] := by
  unfold find_new_columns
  rw [List.filter_eq_nil_iff]
  intro c hc
  simpa [List.elem_iff] using h c hc

/-- No new indexes when every target index name already exists. -/
theorem find_new_indexes_subset (ct tgt : Table)
    (h : ∀ i ∈ tgt.indexes, i.name ∈ ct.indexes.map Index.name) :
    find_new_indexes (some ct) tgt = [] := by
  unfold find_new_indexes
  rw [List.filter_eq_nil_iff]
  intro i hi
  simpa [List.elem_iff] using h i hi

/-- No dropped indexes when every current index name persists. -/
theorem find_dropped_indexes_subset (cur tgt : Table)
    (h : ∀ i ∈ cur.indexes, i.name ∈ tgt.indexes.map Index.name) :
    find_dropped_indexes cur tgt = [] := by
  unfold find_dropped_indexes
  rw [List.filter_eq_nil_iff]
  intro i hi
  simpa [List.elem_iff] using h i hi

/-- No changed columns when the two column lists are equal and names are
duplicate-free (so the last-binding-wins map lookup returns each column
itself). -/
theorem find_changed_columns_eq_nil (cur tgt : Table) (hc : cur.columns = tgt.columns)
    (hnd : (tgt.columns.map Column.name).Nodup) :
    find_changed_columns cur tgt = [] := by
  unfold find_changed_columns
  rw [List.filterMap_eq_nil_iff]
  intro tc htc
  rw [hc]
  have hfind : tgt.columns.reverse.find? (fun c => c.name == tc.name) = some tc := by
    apply find?_key_of_nodup Column.name tgt.columns.reverse
    · rw [List.map_reverse]
      exact List.nodup_reverse.mpr hnd
    · exact List.mem_reverse.mpr htc
  rw [hfind]
  simp [columns_differ_self]

-- ============ Claim C5 ============

/-- C5: diffing a schema against itself yields the empty plan, for every
schema with duplicate-free table keys (a `HashMap` guarantee in the source)
and duplicate-free column names per table (the documented invariant). -/
theorem C5_self_diff_empty (S : Schema)
    (hkeys : (S.tables.map Prod.fst).Nodup)
    (hcols : ∀ p ∈ S.tables, ((p.2 : Table).columns.map Column.name).Nodup) :
    generate_migrations S S = [] := by
  have hlook : ∀ p ∈ S.tables, lookupTable S p.1 = some p.2 := by
    intro p hp
    rcases p with ⟨n, t⟩
    exact lookup_mem_of_nodup S.tables hkeys hp
  have h1 : phase1 S S = [] := by
    unfold phase1
    rw [List.flatMap_eq_nil_iff]
    intro p hp
    rw [hlook p hp]
    dsimp only
    rw [find_dropped_foreign_keys_subset _ _ (fun f hf => List.mem_map_of_mem _ hf)]
    rfl
  have h2 : phase2 S S = [] := by
    unfold phase2
    have hnt : find_new_tables S S = [] := by
      unfold find_new_tables
      rw [List.filter_eq_nil_iff]
      intro n hn
      simp [containsKey_of_mem_fst S.tables n hn]
    rw [hnt]
    rfl
  have h3 : phase3 S S = [] := by
    unfold phase3
    rw [List.flatMap_eq_nil_iff]
    intro p hp
    rw [hlook p hp]
    dsimp only
    rw [find_new_columns_subset _ _ (fun c hc => List.mem_map_of_mem _ hc),
      find_changed_columns_eq_nil _ _ rfl (hcols p hp)]
    rfl
  have h4 : phase4 S S = [] := by
    unfold phase4
    rw [List.flatMap_eq_nil_iff]
    intro p hp
    rw [hlook p hp]
    rw [find_new_indexes_subset _ _ (fun i hi => List.mem_map_of_mem _ hi)]
    rfl
  have h5 : phase5 S S = [] := by
    unfold phase5
    rw [List.flatMap_eq_nil_iff]
    intro p hp
    rw [hlook p hp]
    rw [find_new_foreign_keys_subset _ _ (fun f hf => List.mem_map_of_mem _ hf)]
    rfl
  have h6 : phase6 S S = [] := by
    unfold phase6
    rw [List.flatMap_eq_nil_iff]
    intro p hp
    rw [hlook p hp]
    dsimp only
    rw [find_dropped_indexes_subset _ _ (fun i hi => List.mem_map_of_mem _ hi)]
    rfl
  unfold generate_migrations
  rw [h1, h2, h3, h4, h5, h6]
  rfl

/-- C5, witness: the self-diff of a concrete two-table schema is empty. -/
theorem C5_witness :
    generate_migrations
      ⟨[("users", ⟨[⟨"id", "integer", false, none⟩, ⟨"name", "text", true, none⟩],
          [], [⟨"users_pkey", ["id"], true, "btree"⟩]⟩),
        ("posts", ⟨[⟨"id", "integer", false, none⟩, ⟨"author_id", "integer", false, none⟩],
          [⟨"author_id", "users", "id"⟩], [⟨"posts_pkey", ["id"], true, "btree"⟩]⟩)]⟩
      ⟨[("users", ⟨[⟨"id", "integer", false, none⟩, ⟨"name", "text", true, none⟩],
          [], [⟨"users_pkey", ["id"], true, "btree"⟩]⟩),
        ("posts", ⟨[⟨"id", "integer", false, none⟩, ⟨"author_id", "integer", false, none⟩],
          [⟨"author_id", "users", "id"⟩], [⟨"posts_pkey", ["id"], true, "btree"⟩]⟩)]⟩ = [] :=
  C5_self_diff_empty
    ⟨[("users", ⟨[⟨"id", "integer", false, none⟩, ⟨"name", "text", true, none⟩],
        [], [⟨"users_pkey", ["id"], true, "btree"⟩]⟩),
      ("posts", ⟨[⟨"id", "integer", false, none⟩, ⟨"author_id", "integer", false, none⟩],
        [⟨"author_id", "users", "id"⟩], [⟨"posts_pkey", ["id"], true, "btree"⟩]⟩)]⟩
    (by decide) (by decide)

-- ============ Shape-equality lemmas ============

/-- Foreign-key lists that agree pointwise on `(column, referenced_table)`
have equal identity-pair projections. -/
theorem listShapeEq_fk_pairs (l1 l2 : List ForeignKey)
    (h : listShapeEq fkShapeEq l1 l2 = true) :
    l1.map (fun f => (f.column, f.referenced_table))
      = l2.map (fun f => (f.column, f.referenced_table)) := by
  induction l1 generalizing l2 with
  | nil => cases l2 with
    | nil => rfl
    | cons b bs => simp [listShapeEq] at h
  | cons a as ih =>
    cases l2 with
    | nil => simp [listShapeEq] at h
    | cons b bs =>
      have h' := h
      simp only [listShapeEq, Bool.and_eq_true, fkShapeEq, beq_iff_eq] at h'
      obtain ⟨⟨h1, h2⟩, h3⟩ := h'
      simp [h1, h2, ih bs h3]

/-- Unpacking `tableShapeEq`: equal columns, equal indexes, equal
foreign-key identity pairs. -/
theorem tableShapeEq_spec (t u : Table) (h : tableShapeEq t u = true) :
    t.columns = u.columns ∧ t.indexes = u.indexes
      ∧ t.foreign_keys.map (fun f => (f.column, f.referenced_table))
          = u.foreign_keys.map (fun f => (f.column, f.referenced_table)) := by
  have h' := h
  simp only [tableShapeEq, Bool.and_eq_true, beq_iff_eq] at h'
  exact ⟨h'.1.1, h'.1.2, listShapeEq_fk_pairs _ _ h'.2⟩

/-- Shape-equal schema lists have the same keys. -/
theorem listShapeEq_keys (l1 l2 : List (String × Table))
    (h : listShapeEq (fun p q => p.1 == q.1 && tableShapeEq p.2 q.2) l1 l2 = true) :
    l1.map Prod.fst = l2.map Prod.fst := by
  induction l1 generalizing l2 with
  | nil => cases l2 with
    | nil => rfl
    | cons b bs => simp [listShapeEq] at h
  | cons a as ih =>
    cases l2 with
    | nil => simp [listShapeEq] at h
    | cons b bs =>
      have h' := h
      simp only [listShapeEq, Bool.and_eq_true, beq_iff_eq] at h'
      obtain ⟨⟨h1, _⟩, h3⟩ := h'
      simp [h1, ih bs h3]

/-- `find?` on a key behaves in lock-step on shape-equal schema lists. -/
theorem listShapeEq_find? (l1 l2 : List (String × Table))
    (h : listShapeEq (fun p q => p.1 == q.1 && tableShapeEq p.2 q.2) l1 l2 = true)
    (n : String) :
    (l1.find? (fun p => p.1 == n) = none ∧ l2.find? (fun p => p.1 == n) = none)
    ∨ (∃ p q, l1.find? (fun p' => p'.1 == n) = some p
        ∧ l2.find? (fun q' => q'.1 == n) = some q
        ∧ p.1 = q.1 ∧ tableShapeEq p.2 q.2 = true ∧ p ∈ l1 ∧ q ∈ l2) := by
  induction l1 generalizing l2 with
  | nil => cases l2 with
    | nil => exact Or.inl ⟨rfl, rfl⟩
    | cons b bs => simp [listShapeEq] at h
  | cons a as ih =>
    cases l2 with
    | nil => simp [listShapeEq] at h
    | cons b bs =>
      have h' := h
      simp only [listShapeEq, Bool.and_eq_true, beq_iff_eq] at h'
      obtain ⟨⟨hk, hts⟩, hrest⟩ := h'
      by_cases hn : a.1 = n
      · refine Or.inr ⟨a, b, ?_, ?_, hk, hts, List.mem_cons_self a as, List.mem_cons_self b bs⟩
        · simp [List.find?_cons, hn]
        · simp [List.find?_cons, hk ▸ hn]
      · have hbn : ¬ b.1 = n := fun he => hn (hk ▸ he)
        have hfa : (a.1 == n) = false := by simpa using hn
        have hfb : (b.1 == n) = false := by simpa using hbn
        rcases ih bs hrest with ⟨h1, h2⟩ | ⟨p, q, hp, hq, hpq, hsh, hpm, hqm⟩
        · exact Or.inl ⟨by simp [List.find?_cons, hfa, h1], by simp [List.find?_cons, hfb, h2]⟩
        · exact Or.inr ⟨p, q, by simp [List.find?_cons, hfa, hp],
            by simp [List.find?_cons, hfb, hq], hpq, hsh,
            List.mem_cons_of_mem a hpm, List.mem_cons_of_mem b hqm⟩

-- ============ Claim C6 ============

/-- C6: foreign keys are identified by `(column, referenced_table)` only —
two schemas that differ at most in `referenced_column` fields (with
duplicate-free keys and column names) produce an empty plan. -/
theorem C6_referenced_column_ignored (cur tgt : Schema)
    (hkeys : (cur.tables.map Prod.fst).Nodup)
    (hcols : ∀ p ∈ cur.tables, ((p.2 : Table).columns.map Column.name).Nodup)
    (hshape : schemaShapeEq cur tgt = true) :
    generate_migrations cur tgt = [] := by
  have hsh : listShapeEq (fun p q => p.1 == q.1 && tableShapeEq p.2 q.2)
      cur.tables tgt.tables = true := hshape
  have hkeysT : (tgt.tables.map Prod.fst).Nodup := by
    rw [← listShapeEq_keys _ _ hsh]
    exact hkeys
  have hlookT : ∀ p ∈ cur.tables, ∃ tt, lookupTable tgt p.1 = some tt
      ∧ tableShapeEq p.2 tt = true := by
    intro p hp
    have hf1 : cur.tables.find? (fun q => q.1 == p.1) = some (p.1, p.2) :=
      find?_fst_of_nodup cur.tables hkeys (by simpa using hp)
    rcases listShapeEq_find? _ _ hsh p.1 with ⟨h1, _⟩ | ⟨a, b, ha, hb, _, hsh2, _, _⟩
    · rw [hf1] at h1
      cases h1
    · have hae : a = (p.1, p.2) := by
        have := hf1.symm.trans ha
        exact (Option.some.injEq _ _ ▸ this).symm
      refine ⟨b.2, ?_, ?_⟩
      · unfold lookupTable
        rw [hb]
        rfl
      · have ha2 : a.2 = p.2 := by rw [hae]
        rw [← ha2]
        exact hsh2
  have hlookC : ∀ p ∈ tgt.tables, ∃ a ∈ cur.tables,
      lookupTable cur p.1 = some a.2 ∧ tableShapeEq a.2 p.2 = true := by
    intro p hp
    have hf2 : tgt.tables.find? (fun q => q.1 == p.1) = some (p.1, p.2) :=
      find?_fst_of_nodup tgt.tables hkeysT (by simpa using hp)
    rcases listShapeEq_find? _ _ hsh p.1 with ⟨_, h2⟩ | ⟨a, b, ha, hb, _, hsh2, hma, _⟩
    · rw [hf2] at h2
      cases h2
    · have hbe : b = (p.1, p.2) := by
        have := hf2.symm.trans hb
        exact (Option.some.injEq _ _ ▸ this).symm
      refine ⟨a, hma, ?_, ?_⟩
      · unfold lookupTable
        rw [ha]
        rfl
      · rw [hbe] at hsh2
        exact hsh2
  have h1 : phase1 cur tgt = [] := by
    unfold phase1
    rw [List.flatMap_eq_nil_iff]
    intro p hp
    obtain ⟨tt, hl, hsh2⟩ := hlookT p hp
    rw [hl]
    dsimp only
    obtain ⟨_, _, hfk⟩ := tableShapeEq_spec _ _ hsh2
    rw [find_dropped_foreign_keys_subset _ _
      (fun f hf => by rw [← hfk]; exact List.mem_map_of_mem _ hf)]
    rfl
  have h2 : phase2 cur tgt = [] := by
    unfold phase2
    have hnt : find_new_tables cur tgt = [] := by
      unfold find_new_tables
      rw [List.filter_eq_nil_iff]
      intro n hn
      have hn' : n ∈ cur.tables.map Prod.fst := by
        rw [listShapeEq_keys _ _ hsh]
        exact hn
      simp [containsKey_of_mem_fst cur.tables n hn']
    rw [hnt]
    rfl
  have h3 : phase3 cur tgt = [] := by
    unfold phase3
    rw [List.flatMap_eq_nil_iff]
    intro p hp
    obtain ⟨a, hma, hl, hsh2⟩ := hlookC p hp
    rw [hl]
    dsimp only
    obtain ⟨hcolseq, _, _⟩ := tableShapeEq_spec _ _ hsh2
    have hnd : ((p.2 : Table).columns.map Column.name).Nodup := by
      have := hcols a hma
      rw [hcolseq] at this
      exact this
    rw [find_new_columns_subset _ _
        (fun c hc => by rw [hcolseq]; exact List.mem_map_of_mem _ hc),
      find_changed_columns_eq_nil _ _ hcolseq hnd]
    rfl
  have h4 : phase4 cur tgt = [] := by
    unfold phase4
    rw [List.flatMap_eq_nil_iff]
    intro p hp
    obtain ⟨a, hma, hl, hsh2⟩ := hlookC p hp
    rw [hl]
    obtain ⟨_, hidx, _⟩ := tableShapeEq_spec _ _ hsh2
    rw [find_new_indexes_subset _ _
      (fun i hi => by rw [hidx]; exact List.mem_map_of_mem _ hi)]
    rfl
  have h5 : phase5 cur tgt = [] := by
    unfold phase5
    rw [List.flatMap_eq_nil_iff]
    intro p hp
    obtain ⟨a, hma, hl, hsh2⟩ := hlookC p hp
    rw [hl]
    obtain ⟨_, _, hfk⟩ := tableShapeEq_spec _ _ hsh2
    rw [find_new_foreign_keys_subset _ _
      (fun f hf => by rw [hfk]; exact List.mem_map_of_mem _ hf)]
    rfl
  have h6 : phase6 cur tgt = [] := by
    unfold phase6
    rw [List.flatMap_eq_nil_iff]
    intro p hp
    obtain ⟨tt, hl, hsh2⟩ := hlookT p hp
    rw [hl]
    dsimp only
    obtain ⟨_, hidx, _⟩ := tableShapeEq_spec _ _ hsh2
    rw [find_dropped_indexes_subset _ _
      (fun i hi => by rw [← hidx]; exact List.mem_map_of_mem _ hi)]
    rfl
  unfold generate_migrations
  rw [h1, h2, h3, h4, h5, h6]
  rfl

/-- C6, witness: changing only a foreign key's `referenced_column` (here
`id` to `uid`) yields an empty plan. -/
theorem C6_witness :
    generate_migrations
      ⟨[("posts", ⟨[⟨"id", "integer", false, none⟩],
          [⟨"author_id", "users", "id"⟩], []⟩)]⟩
      ⟨[("posts", ⟨[⟨"id", "integer", false, none⟩],
          [⟨"author_id", "users", "uid"⟩], []⟩)]⟩ = [] :=
  C6_referenced_column_ignored
    ⟨[("posts", ⟨[⟨"id", "integer", false, none⟩],
        [⟨"author_id", "users", "id"⟩], []⟩)]⟩
    ⟨[("posts", ⟨[⟨"id", "integer", false, none⟩],
        [⟨"author_id", "users", "uid"⟩], []⟩)]⟩
    (by decide) (by decide) (by decide)


-- ============ Phase shape lemmas and claims C1, C7 ============

/-- Every phase-1 statement is a drop-foreign-key statement. -/
theorem mem_phase1_shape (current target : Schema) (s : String) (h : s ∈ phase1 current target) :
    ∃ t fk, s = generate_drop_fk t fk := by
  unfold phase1 at h
  rw [List.mem_flatMap] at h
  obtain ⟨p, hp, hs⟩ := h
  cases hl : lookupTable target p.1 with
  | none => rw [hl] at hs; cases hs
  | some tt =>
    rw [hl] at hs
    rw [List.mem_map] at hs
    obtain ⟨fk, _, hfk⟩ := hs
    exact ⟨p.1, fk, hfk.symm⟩

/-- Every phase-2 statement is a create-table statement. -/
theorem mem_phase2_shape (current target : Schema) (s : String) (h : s ∈ phase2 current target) :
    ∃ n tab, s = generate_create_table n tab := by
  unfold phase2 at h
  rw [List.mem_filterMap] at h
  obtain ⟨tn, _, hs⟩ := h
  cases hl : lookupTable target tn with
  | none => rw [hl] at hs; cases hs
  | some tab =>
    rw [hl] at hs
    exact ⟨tn, tab, (Option.some.injEq _ _ ▸ hs).symm⟩

/-- Every phase-3 statement is an add-column or an alter-column statement. -/
theorem mem_phase3_shape (current target : Schema) (s : String) (h : s ∈ phase3 current target) :
    (∃ t c, s = generate_add_column t c) ∨ (∃ t o n, s ∈ generate_alter_column t o n) := by
  unfold phase3 at h
  rw [List.mem_flatMap] at h
  obtain ⟨p, hp, hs⟩ := h
  cases hl : lookupTable current p.1 with
  | none => rw [hl] at hs; cases hs
  | some ct =>
    rw [hl] at hs
    rw [List.mem_append] at hs
    rcases hs with hs | hs
    · rw [List.mem_map] at hs
      obtain ⟨c, _, hc⟩ := hs
      exact Or.inl ⟨p.1, c, hc.symm⟩
    · rw [List.mem_flatMap] at hs
      obtain ⟨q, _, hq⟩ := hs
      exact Or.inr ⟨p.1, q.1, q.2, hq⟩

/-- Every phase-4 statement creates an index whose name does not end in
`_pkey`. -/
theorem mem_phase4_shape (current target : Schema) (s : String) (h : s ∈ phase4 current target) :
    ∃ t idx, s = generate_create_index t idx ∧ strEndsWith idx.name "_pkey" = false := by
  unfold phase4 at h
  rw [List.mem_flatMap] at h
  obtain ⟨p, hp, hs⟩ := h
  rw [List.mem_map] at hs
  obtain ⟨idx, hidx, hi⟩ := hs
  rw [List.mem_filter] at hidx
  refine ⟨p.1, idx, hi.symm, ?_⟩
  simpa using hidx.2

/-- Every phase-5 statement is an add-foreign-key statement. -/
theorem mem_phase5_shape (current target : Schema) (s : String) (h : s ∈ phase5 current target) :
    ∃ t fk, s = generate_add_fk t fk := by
  unfold phase5 at h
  rw [List.mem_flatMap] at h
  obtain ⟨p, hp, hs⟩ := h
  rw [List.mem_map] at hs
  obtain ⟨fk, _, hfk⟩ := hs
  exact ⟨p.1, fk, hfk.symm⟩

/-- Every phase-6 statement drops an index whose name does not end in
`_pkey`. -/
theorem mem_phase6_shape (current target : Schema) (s : String) (h : s ∈ phase6 current target) :
    ∃ idx : Index, s = generate_drop_index idx.name ∧ strEndsWith idx.name "_pkey" = false := by
  unfold phase6 at h
  rw [List.mem_flatMap] at h
  obtain ⟨p, hp, hs⟩ := h
  cases hl : lookupTable target p.1 with
  | none => rw [hl] at hs; cases hs
  | some tt =>
    rw [hl] at hs
    rw [List.mem_map] at hs
    obtain ⟨idx, hidx, hi⟩ := hs
    rw [List.mem_filter] at hidx
    refine ⟨idx, hi.symm, ?_⟩
    simpa using hidx.2

/-- C1: the plan of `generate_migrations` is ordered in six phases — it is
the concatenation of six blocks in which, in order, every statement is a
drop-foreign-key, a create-table, a column add/alter, a create-index, an
add-foreign-key, and a drop-index statement; hence every drop-foreign-key
precedes every create-table, which precedes every column add/alter, which
precedes every create-index, which precedes every add-foreign-key, which
precedes every drop-index. -/
theorem C1_plan_phase_ordering (current target : Schema) :
    ∃ p1 p2 p3 p4 p5 p6,
      generate_migrations current target = p1 ++ p2 ++ p3 ++ p4 ++ p5 ++ p6
      ∧ (∀ s ∈ p1, ∃ t fk, s = generate_drop_fk t fk)
      ∧ (∀ s ∈ p2, ∃ n tab, s = generate_create_table n tab)
      ∧ (∀ s ∈ p3, (∃ t c, s = generate_add_column t c)
          ∨ (∃ t o n, s ∈ generate_alter_column t o n))
      ∧ (∀ s ∈ p4, ∃ t idx, s = generate_create_index t idx)
      ∧ (∀ s ∈ p5, ∃ t fk, s = generate_add_fk t fk)
      ∧ (∀ s ∈ p6, ∃ n, s = generate_drop_index n) := by
  refine ⟨phase1 current target, phase2 current target, phase3 current target,
    phase4 current target, phase5 current target, phase6 current target,
    rfl, ?_, ?_, ?_, ?_, ?_, ?_⟩
  · exact fun s hs => mem_phase1_shape current target s hs
  · exact fun s hs => mem_phase2_shape current target s hs
  · exact fun s hs => mem_phase3_shape current target s hs
  · intro s hs
    obtain ⟨t, idx, he, _⟩ := mem_phase4_shape current target s hs
    exact ⟨t, idx, he⟩
  · exact fun s hs => mem_phase5_shape current target s hs
  · intro s hs
    obtain ⟨idx, he, _⟩ := mem_phase6_shape current target s hs
    exact ⟨idx.name, he⟩

/-- C7: no CREATE INDEX or DROP INDEX statement of a plan names an index
ending in `_pkey`: the index-creating phase 4 and index-dropping phase 6 only
emit statements for indexes whose name does not end in `_pkey`, and every
other statement of the plan comes from one of the non-index emitters. -/
theorem C7_pkey_indexes_excluded (current target : Schema) :
    (∀ s ∈ phase4 current target, ∃ t idx, s = generate_create_index t idx
        ∧ strEndsWith idx.name "_pkey" = false)
    ∧ (∀ s ∈ phase6 current target, ∃ idx : Index, s = generate_drop_index idx.name
        ∧ strEndsWith idx.name "_pkey" = false)
    ∧ (∀ s ∈ generate_migrations current target,
        s ∈ phase4 current target ∨ s ∈ phase6 current target
        ∨ (∃ t fk, s = generate_drop_fk t fk) ∨ (∃ n tab, s = generate_create_table n tab)
        ∨ (∃ t c, s = generate_add_column t c)
        ∨ (∃ t o n, s ∈ generate_alter_column t o n)
        ∨ (∃ t fk, s = generate_add_fk t fk)) := by
  refine ⟨fun s hs => mem_phase4_shape current target s hs,
    fun s hs => mem_phase6_shape current target s hs, ?_⟩
  intro s hs
  unfold generate_migrations at hs
  simp only [List.mem_append] at hs
  rcases hs with ((((hs | hs) | hs) | hs) | hs) | hs
  · exact Or.inr (Or.inr (Or.inl (mem_phase1_shape current target s hs)))
  · exact Or.inr (Or.inr (Or.inr (Or.inl (mem_phase2_shape current target s hs))))
  · rcases mem_phase3_shape current target s hs with h | h
    · exact Or.inr (Or.inr (Or.inr (Or.inr (Or.inl h))))
    · exact Or.inr (Or.inr (Or.inr (Or.inr (Or.inr (Or.inl h)))))
  · exact Or.inl hs
  · exact Or.inr (Or.inr (Or.inr (Or.inr (Or.inr (Or.inr (mem_phase5_shape current target s hs))))))
  · exact Or.inr (Or.inl hs)


-- ============ Frame lemmas for claim C9 ============

/-- An uncontained key looks up to `none`. -/
theorem lookup_none_of_not_containsKey (l : List (String × Table)) (n : String)
    (h : containsKey ⟨l⟩ n = false) : lookupTable ⟨l⟩ n = none := by
  unfold containsKey at h
  unfold lookupTable
  rw [List.find?_eq_none.mpr]
  · rfl
  · intro p hp hbeq
    have : l.any (fun p => p.1 == n) = true := List.any_eq_true.mpr ⟨p, hp, hbeq⟩
    rw [h] at this
    cases this

/-- Removing one table does not change lookups of other keys. -/
theorem lookup_removeTable_ne (s : Schema) (t n : String) (hn : ¬ n = t) :
    lookupTable (removeTable s t) n = lookupTable s n := by
  unfold lookupTable removeTable
  dsimp only
  rw [find?_filter_of_imp (fun p => p.1 == n) (fun p => !(p.1 == t)) s.tables]
  intro a ha
  have ha' : a.1 = n := by simpa using ha
  have : ¬ a.1 = t := fun he => hn (ha' ▸ he)
  simpa using this

/-- Removing one table does not change `containsKey` on other keys. -/
theorem containsKey_removeTable (s : Schema) (t n : String) (hn : ¬ n = t) :
    containsKey (removeTable s t) n = containsKey s n := by
  unfold containsKey removeTable
  dsimp only
  induction s.tables with
  | nil => rfl
  | cons a as ih =>
    by_cases hat : (a.1 == t) = true
    · have h2 : (a.1 == n) = false := by
        have hat' : a.1 = t := by simpa using hat
        have : ¬ a.1 = n := fun he => hn (by rw [← he, hat'])
        simpa using this
      simp [List.filter_cons, hat, List.any_cons, h2, ih]
    · simp [List.filter_cons, hat, List.any_cons, ih]

/-- `find?` by key commutes with mapping by a key-preserving function. -/
theorem find?_map_keyPreserving (g : String × Table → String × Table)
    (hg : ∀ p, (g p).1 = p.1) (l : List (String × Table)) (n : String) :
    (l.map g).find? (fun p => p.1 == n) = (l.find? (fun p => p.1 == n)).map g := by
  induction l with
  | nil => rfl
  | cons a as ih =>
    cases han : (a.1 == n) with
    | true =>
      have h1 : ((g a).1 == n) = true := by rw [hg a]; exact han
      simp [List.find?_cons, h1, han]
    | false =>
      have h1 : ((g a).1 == n) = false := by rw [hg a]; exact han
      simp [List.find?_cons, h1, han, ih]

/-- `any` by key commutes with mapping by a key-preserving function. -/
theorem any_map_keyPreserving (g : String × Table → String × Table)
    (hg : ∀ p, (g p).1 = p.1) (l : List (String × Table)) (n : String) :
    (l.map g).any (fun p => p.1 == n) = l.any (fun p => p.1 == n) := by
  induction l with
  | nil => rfl
  | cons a as ih => simp [List.any_cons, hg a, ih]

/-- The per-entry function of `mapTable` preserves keys. -/
theorem mapTable_entry_key (t : String) (f : Table → Table) (p : String × Table) :
    ((if p.1 == t then (p.1, f p.2) else p) : String × Table).1 = p.1 := by
  by_cases h : (p.1 == t) = true <;> simp [h]

/-- `mapTable` does not change `containsKey`. -/
theorem containsKey_mapTable (s : Schema) (t : String) (f : Table → Table) (n : String) :
    containsKey (mapTable s t f) n = containsKey s n := by
  unfold containsKey mapTable
  dsimp only
  exact any_map_keyPreserving _ (mapTable_entry_key t f) s.tables n

/-- `mapTable` does not change lookups on other keys. -/
theorem lookup_mapTable_ne (s : Schema) (t : String) (f : Table → Table) (n : String)
    (hn : ¬ n = t) : lookupTable (mapTable s t f) n = lookupTable s n := by
  unfold lookupTable mapTable
  dsimp only
  rw [find?_map_keyPreserving _ (mapTable_entry_key t f) s.tables n]
  cases hf : s.tables.find? (fun p => p.1 == n) with
  | none => rfl
  | some p =>
    have hp1 : p.1 = n := by simpa using List.find?_some hf
    have hpt : ¬ p.1 = t := fun he => hn (hp1 ▸ he)
    simp [hpt]

/-- `mapTable` applies the table transformation at its own key. -/
theorem lookup_mapTable_eq (s : Schema) (t : String) (f : Table → Table) :
    lookupTable (mapTable s t f) t = (lookupTable s t).map f := by
  unfold lookupTable mapTable
  dsimp only
  rw [find?_map_keyPreserving _ (mapTable_entry_key t f) s.tables t]
  cases hf : s.tables.find? (fun p => p.1 == t) with
  | none => rfl
  | some p =>
    have hp1 : p.1 = t := by simpa using List.find?_some hf
    simp [hp1]

/-- `flatMap` ignores filtered-out entries whose body is empty. -/
theorem flatMap_filter_eq {α β : Type} (l : List α) (q : α → Bool) (f : α → List β)
    (h : ∀ a ∈ l, q a = false → f a = []) : (l.filter q).flatMap f = l.flatMap f := by
  induction l with
  | nil => rfl
  | cons a as ih =>
    have ih' := ih (fun b hb hq' => h b (List.mem_cons_of_mem a hb) hq')
    cases hq : q a with
    | true => simp [List.filter_cons, hq, ih']
    | false =>
      have ha : f a = [] := h a (List.mem_cons_self a as) hq
      simp [List.filter_cons, hq, ha, ih']

/-- Pointwise-equal bodies give equal `flatMap`s. -/
theorem flatMap_congr_mem {α β : Type} (l : List α) (f g : α → List β)
    (h : ∀ a ∈ l, f a = g a) : l.flatMap f = l.flatMap g := by
  induction l with
  | nil => rfl
  | cons a as ih =>
    simp [h a (List.mem_cons_self a as),
      ih (fun b hb => h b (List.mem_cons_of_mem a hb))]

/-- Pointwise-equal bodies give equal `filterMap`s. -/
theorem filterMap_congr_mem {α β : Type} (l : List α) (f g : α → Option β)
    (h : ∀ a ∈ l, f a = g a) : l.filterMap f = l.filterMap g := by
  induction l with
  | nil => rfl
  | cons a as ih =>
    simp only [List.filterMap_cons, h a (List.mem_cons_self a as),
      ih (fun b hb => h b (List.mem_cons_of_mem a hb))]

/-- Dropping an absent column name leaves `find_new_columns` unchanged. -/
theorem find_new_columns_dropColumn (ct tgtT : Table) (cname : String)
    (h : ∀ c ∈ tgtT.columns, ¬ c.name = cname) :
    find_new_columns (dropColumn ct cname) tgtT = find_new_columns ct tgtT := by
  unfold find_new_columns dropColumn
  dsimp only
  apply List.filter_congr
  intro c hc
  have hcn : ¬ c.name = cname := h c hc
  have hcontains :
      ((ct.columns.filter (fun c' => !(c'.name == cname))).map Column.name).contains c.name
        = (ct.columns.map Column.name).contains c.name := by
    apply Bool.coe_iff_coe.mp
    constructor
    · intro hmem
      rw [List.elem_iff] at hmem ⊢
      rcases List.mem_map.mp hmem with ⟨c', hc', he⟩
      exact he ▸ List.mem_map_of_mem _ (List.mem_of_mem_filter hc')
    · intro hmem
      rw [List.elem_iff] at hmem ⊢
      rcases List.mem_map.mp hmem with ⟨c', hc', he⟩
      refine List.mem_map.mpr ⟨c', List.mem_filter.mpr ⟨hc', ?_⟩, he⟩
      have : ¬ c'.name = cname := by rw [he]; exact hcn
      simpa using this
  rw [hcontains]

/-- Dropping an absent column name leaves `find_changed_columns` unchanged. -/
theorem find_changed_columns_dropColumn (ct tgtT : Table) (cname : String)
    (h : ∀ c ∈ tgtT.columns, ¬ c.name = cname) :
    find_changed_columns (dropColumn ct cname) tgtT = find_changed_columns ct tgtT := by
  unfold find_changed_columns dropColumn
  dsimp only
  apply filterMap_congr_mem
  intro tc htc
  have hfind : (ct.columns.filter (fun c' => !(c'.name == cname))).reverse.find?
      (fun c => c.name == tc.name) = ct.columns.reverse.find? (fun c => c.name == tc.name) := by
    rw [← List.filter_reverse]
    exact find?_filter_of_imp _ _ _ (fun a ha => by
      have ha' : a.name = tc.name := by simpa using ha
      have : ¬ a.name = cname := by rw [ha']; exact h tc htc
      simpa using this)
  rw [hfind]

-- ============ Claim C9 ============

/-- C9: the differ is additive.  (i) Every plan statement comes from one of
the seven emitters, none of which drops a table or a column; (ii) removing
from `current` a table absent from `target` leaves the plan unchanged, so
such tables produce no statements; (iii) removing from a current table every
column of a name absent from the corresponding target table leaves the plan
unchanged, so such columns produce no statements. -/
theorem C9_additive_frame (cur tgt : Schema) :
    (∀ s ∈ generate_migrations cur tgt, fromPlanEmitters s)
    ∧ (∀ tname, containsKey tgt tname = false →
        generate_migrations (removeTable cur tname) tgt = generate_migrations cur tgt)
    ∧ (∀ tname cname,
        (∀ p ∈ tgt.tables, p.1 = tname → ∀ c ∈ (p.2 : Table).columns, ¬ c.name = cname) →
        generate_migrations (mapTable cur tname (fun t => dropColumn t cname)) tgt
          = generate_migrations cur tgt) := by
  refine ⟨?_, ?_, ?_⟩
  · intro s hs
    unfold generate_migrations at hs
    simp only [List.mem_append] at hs
    unfold fromPlanEmitters
    rcases hs with ((((hs | hs) | hs) | hs) | hs) | hs
    · exact Or.inl (mem_phase1_shape cur tgt s hs)
    · exact Or.inr (Or.inl (mem_phase2_shape cur tgt s hs))
    · rcases mem_phase3_shape cur tgt s hs with h | h
      · exact Or.inr (Or.inr (Or.inl h))
      · exact Or.inr (Or.inr (Or.inr (Or.inl h)))
    · obtain ⟨t, idx, he, _⟩ := mem_phase4_shape cur tgt s hs
      exact Or.inr (Or.inr (Or.inr (Or.inr (Or.inl ⟨t, idx, he⟩))))
    · exact Or.inr (Or.inr (Or.inr (Or.inr (Or.inr (Or.inl (mem_phase5_shape cur tgt s hs))))))
    · obtain ⟨idx, he, _⟩ := mem_phase6_shape cur tgt s hs
      exact Or.inr (Or.inr (Or.inr (Or.inr (Or.inr (Or.inr ⟨idx.name, he⟩)))))
  · intro tname htgt
    have hmem_ne : ∀ p : String × Table, p ∈ tgt.tables → ¬ (p.1 : String) = tname := by
      intro p hp he
      have hck := containsKey_of_mem_fst tgt.tables p.1 (List.mem_map_of_mem Prod.fst hp)
      rw [he, htgt] at hck
      cases hck
    have hb1 : phase1 (removeTable cur tname) tgt = phase1 cur tgt := by
      unfold phase1 removeTable
      dsimp only
      apply flatMap_filter_eq
      intro p _ hq
      have hpt : p.1 = tname := by simpa using hq
      rw [hpt, lookup_none_of_not_containsKey tgt.tables tname htgt]
    have hb2 : phase2 (removeTable cur tname) tgt = phase2 cur tgt := by
      unfold phase2
      have hnt : find_new_tables (removeTable cur tname) tgt = find_new_tables cur tgt := by
        unfold find_new_tables
        apply List.filter_congr
        intro n hn
        have hne : ¬ n = tname := by
          intro he
          have hck := containsKey_of_mem_fst tgt.tables n hn
          rw [he, htgt] at hck
          cases hck
        rw [containsKey_removeTable cur tname n hne]
      rw [hnt]
    have hb3 : phase3 (removeTable cur tname) tgt = phase3 cur tgt := by
      unfold phase3
      apply flatMap_congr_mem
      intro p hp
      rw [lookup_removeTable_ne cur tname p.1 (hmem_ne p hp)]
    have hb4 : phase4 (removeTable cur tname) tgt = phase4 cur tgt := by
      unfold phase4
      apply flatMap_congr_mem
      intro p hp
      rw [lookup_removeTable_ne cur tname p.1 (hmem_ne p hp)]
    have hb5 : phase5 (removeTable cur tname) tgt = phase5 cur tgt := by
      unfold phase5
      apply flatMap_congr_mem
      intro p hp
      rw [lookup_removeTable_ne cur tname p.1 (hmem_ne p hp)]
    have hb6 : phase6 (removeTable cur tname) tgt = phase6 cur tgt := by
      unfold phase6 removeTable
      dsimp only
      apply flatMap_filter_eq
      intro p _ hq
      have hpt : p.1 = tname := by simpa using hq
      rw [hpt, lookup_none_of_not_containsKey tgt.tables tname htgt]
    unfold generate_migrations
    rw [hb1, hb2, hb3, hb4, hb5, hb6]
  · intro tname cname hcond
    have hc1 : phase1 (mapTable cur tname (fun t => dropColumn t cname)) tgt
        = phase1 cur tgt := by
      unfold phase1 mapTable
      dsimp only
      rw [List.flatMap_map]
      apply flatMap_congr_mem
      intro p _
      by_cases hpt : (p.1 == tname) = true
      · rw [if_pos hpt]
        rfl
      · rw [if_neg hpt]
    have hc2 : phase2 (mapTable cur tname (fun t => dropColumn t cname)) tgt
        = phase2 cur tgt := by
      unfold phase2
      have hnt : find_new_tables (mapTable cur tname (fun t => dropColumn t cname)) tgt
          = find_new_tables cur tgt := by
        unfold find_new_tables
        apply List.filter_congr
        intro n _
        rw [containsKey_mapTable cur tname (fun t => dropColumn t cname) n]
      rw [hnt]
    have hc3 : phase3 (mapTable cur tname (fun t => dropColumn t cname)) tgt
        = phase3 cur tgt := by
      unfold phase3
      apply flatMap_congr_mem
      intro p hp
      by_cases hpt : p.1 = tname
      · rw [hpt, lookup_mapTable_eq cur tname (fun t => dropColumn t cname)]
        cases hl : lookupTable cur tname with
        | none => rfl
        | some ct =>
          simp only [Option.map_some']
          have htgtcols : ∀ c ∈ (p.2 : Table).columns, ¬ c.name = cname :=
            fun c hc => hcond p hp hpt c hc
          rw [find_new_columns_dropColumn ct p.2 cname htgtcols,
            find_changed_columns_dropColumn ct p.2 cname htgtcols]
      · rw [lookup_mapTable_ne cur tname (fun t => dropColumn t cname) p.1 hpt]
    have hc4 : phase4 (mapTable cur tname (fun t => dropColumn t cname)) tgt
        = phase4 cur tgt := by
      unfold phase4
      apply flatMap_congr_mem
      intro p hp
      by_cases hpt : p.1 = tname
      · rw [hpt, lookup_mapTable_eq cur tname (fun t => dropColumn t cname)]
        cases hl : lookupTable cur tname with
        | none => rfl
        | some ct => simp only [Option.map_some']; rfl
      · rw [lookup_mapTable_ne cur tname (fun t => dropColumn t cname) p.1 hpt]
    have hc5 : phase5 (mapTable cur tname (fun t => dropColumn t cname)) tgt
        = phase5 cur tgt := by
      unfold phase5
      apply flatMap_congr_mem
      intro p hp
      by_cases hpt : p.1 = tname
      · rw [hpt, lookup_mapTable_eq cur tname (fun t => dropColumn t cname)]
        cases hl : lookupTable cur tname with
        | none => rfl
        | some ct => simp only [Option.map_some']; rfl
      · rw [lookup_mapTable_ne cur tname (fun t => dropColumn t cname) p.1 hpt]
    have hc6 : phase6 (mapTable cur tname (fun t => dropColumn t cname)) tgt
        = phase6 cur tgt := by
      unfold phase6 mapTable
      dsimp only
      rw [List.flatMap_map]
      apply flatMap_congr_mem
      intro p _
      by_cases hpt : (p.1 == tname) = true
      · rw [if_pos hpt]
        rfl
      · rw [if_neg hpt]
    unfold generate_migrations
    rw [hc1, hc2, hc3, hc4, hc5, hc6]

/-- C9, witness: dropping the current-only table `legacy`, or the
current-only column `obsolete` of `users`, leaves the concrete plan
unchanged. -/
theorem C9_witness :
    containsKey ⟨[("users", ⟨[⟨"id", "integer", false, none⟩], [], []⟩)]⟩ "legacy" = false
    ∧ generate_migrations
        (removeTable ⟨[("users", ⟨[⟨"id", "integer", false, none⟩,
            ⟨"extra", "text", true, none⟩], [], []⟩),
          ("legacy", ⟨[⟨"id", "integer", false, none⟩], [], []⟩)]⟩ "legacy")
        ⟨[("users", ⟨[⟨"id", "integer", false, none⟩], [], []⟩)]⟩
      = generate_migrations
        ⟨[("users", ⟨[⟨"id", "integer", false, none⟩,
            ⟨"extra", "text", true, none⟩], [], []⟩),
          ("legacy", ⟨[⟨"id", "integer", false, none⟩], [], []⟩)]⟩
        ⟨[("users", ⟨[⟨"id", "integer", false, none⟩], [], []⟩)]⟩
    ∧ generate_migrations
        (mapTable ⟨[("users", ⟨[⟨"id", "integer", false, none⟩,
            ⟨"extra", "text", true, none⟩], [], []⟩),
          ("legacy", ⟨[⟨"id", "integer", false, none⟩], [], []⟩)]⟩ "users"
          (fun t => dropColumn t "extra"))
        ⟨[("users", ⟨[⟨"id", "integer", false, none⟩], [], []⟩)]⟩
      = generate_migrations
        ⟨[("users", ⟨[⟨"id", "integer", false, none⟩,
            ⟨"extra", "text", true, none⟩], [], []⟩),
          ("legacy", ⟨[⟨"id", "integer", false, none⟩], [], []⟩)]⟩
        ⟨[("users", ⟨[⟨"id", "integer", false, none⟩], [], []⟩)]⟩ :=
  ⟨by decide,
   (C9_additive_frame
      ⟨[("users", ⟨[⟨"id", "integer", false, none⟩,
          ⟨"extra", "text", true, none⟩], [], []⟩),
        ("legacy", ⟨[⟨"id", "integer", false, none⟩], [], []⟩)]⟩
      ⟨[("users", ⟨[⟨"id", "integer", false, none⟩], [], []⟩)]⟩).2.1 "legacy" (by decide),
   (C9_additive_frame
      ⟨[("users", ⟨[⟨"id", "integer", false, none⟩,
          ⟨"extra", "text", true, none⟩], [], []⟩),
        ("legacy", ⟨[⟨"id", "integer", false, none⟩], [], []⟩)]⟩
      ⟨[("users", ⟨[⟨"id", "integer", false, none⟩], [], []⟩)]⟩).2.2 "users" "extra"
     (by decide)⟩


-- ============ Orderer permutation lemma ============

/-- Within `remaining`, membership in the round's output is the round's
filter predicate. -/
theorem orderRound_filter_congr (ordered remaining : List String) (schema : Schema) :
    remaining.filter
        (fun tn => !(orderRound ordered remaining schema).contains tn)
      = remaining.filter (fun tn => !(match lookupTable schema tn with
          | some table => table.foreign_keys.all (fun fk =>
              ordered.contains fk.referenced_table
              || !remaining.contains fk.referenced_table
              || fk.referenced_table == tn)
          | none => false)) := by
  apply List.filter_congr
  intro tn htn
  have : (orderRound ordered remaining schema).contains tn
      = (match lookupTable schema tn with
          | some table => table.foreign_keys.all (fun fk =>
              ordered.contains fk.referenced_table
              || !remaining.contains fk.referenced_table
              || fk.referenced_table == tn)
          | none => false) := by
    apply Bool.coe_iff_coe.mp
    rw [List.elem_iff]
    unfold orderRound
    constructor
    · intro hmem
      exact (List.mem_filter.mp hmem).2
    · intro hpred
      exact List.mem_filter.mpr ⟨htn, hpred⟩
  rw [this]

/-- The orderer's loop returns a permutation of `ordered ++ remaining`. -/
theorem orderLoop_perm (schema : Schema) :
    ∀ (fuel : Nat) (ordered remaining : List String),
      List.Perm (orderLoop schema fuel ordered remaining) (ordered ++ remaining) := by
  intro fuel
  induction fuel with
  | zero => intro ordered remaining; exact List.Perm.refl _
  | succ fuel ih =>
    intro ordered remaining
    by_cases hre : remaining.isEmpty = true
    · have hnil : remaining = [] := List.isEmpty_iff.mp hre
      subst hnil
      simp [orderLoop]
    · have hre' : remaining.isEmpty = false := by simpa using hre
      by_cases hadd : (orderRound ordered remaining schema).isEmpty = true
      · simp only [orderLoop, hre', Bool.false_eq_true, if_false, hadd, if_true]
        exact List.Perm.refl _
      · have hadd' : (orderRound ordered remaining schema).isEmpty = false := by
          simpa using hadd
        simp only [orderLoop, hre', Bool.false_eq_true, if_false, hadd', if_true]
        refine (ih _ _).trans ?_
        rw [List.append_assoc]
        apply List.Perm.append_left ordered
        rw [orderRound_filter_congr ordered remaining schema]
        exact (List.filter_append_perm _ remaining)

-- ============ Orderer dependency lemmas ============

/-- A contained key looks up to some table. -/
theorem lookup_some_of_containsKey (s : Schema) (n : String)
    (h : containsKey s n = true) : ∃ tab, lookupTable s n = some tab := by
  unfold containsKey at h
  rcases List.any_eq_true.mp h with ⟨p, hp, hbeq⟩
  cases hf : s.tables.find? (fun p => p.1 == n) with
  | none =>
    have := List.find?_eq_none.mp hf p hp
    exact absurd hbeq this
  | some q =>
    refine ⟨q.2, ?_⟩
    unfold lookupTable
    rw [hf]
    rfl

/-- A nonempty list has an element of minimal rank. -/
theorem exists_min_rank (l : List String) (hl : l ≠ []) (r : String → Nat) :
    ∃ t ∈ l, ∀ u ∈ l, r t ≤ r u := by
  cases hm : l.argmin r with
  | none => exact absurd (List.argmin_eq_none.mp hm) hl
  | some m =>
    have hmm : m ∈ l.argmin r := Option.mem_def.mpr hm
    exact ⟨m, List.argmin_mem hmm, fun u hu => List.le_of_mem_argmin hu hmm⟩

/-- `depOrderOkAux` splits over list append. -/
theorem depOrderOkAux_append (input : List String) (schema : Schema) :
    ∀ (xs ys earlier : List String),
      depOrderOkAux input schema earlier (xs ++ ys)
        = (depOrderOkAux input schema earlier xs
            && depOrderOkAux input schema (earlier ++ xs) ys) := by
  intro xs
  induction xs with
  | nil =>
    intro ys earlier
    simp [depOrderOkAux]
  | cons a rest ih =>
    intro ys earlier
    have h1 : depOrderOkAux input schema earlier ((a :: rest) ++ ys)
        = (fkSatisfied input earlier schema a
            && depOrderOkAux input schema (earlier ++ [a]) (rest ++ ys)) := rfl
    have h2 : depOrderOkAux input schema earlier (a :: rest)
        = (fkSatisfied input earlier schema a
            && depOrderOkAux input schema (earlier ++ [a]) rest) := rfl
    rw [h1, h2, ih ys (earlier ++ [a]), Bool.and_assoc]
    have h3 : (earlier ++ [a]) ++ rest = earlier ++ a :: rest := by simp
    rw [h3]

/-- Elements selected by a round satisfy the claim's condition relative to
any extension of `ordered`, provided every input table is covered by
`ordered` or `remaining`. -/
theorem fkSatisfied_of_round (input ordered remaining : List String) (schema : Schema)
    (hcov : ∀ u ∈ input, u ∈ ordered ∨ u ∈ remaining)
    {a : String} (ha : a ∈ orderRound ordered remaining schema) :
    ∀ w, fkSatisfied input (ordered ++ w) schema a = true := by
  intro w
  unfold orderRound at ha
  obtain ⟨hmem, hpred⟩ := List.mem_filter.mp ha
  unfold fkSatisfied
  cases hl : lookupTable schema a with
  | none => rfl
  | some tab =>
    rw [hl] at hpred
    rw [List.all_eq_true] at hpred ⊢
    intro fk hfk
    have hp := hpred fk hfk
    simp only [Bool.or_eq_true] at hp ⊢
    rcases hp with (ho | hnr) | he
    · refine Or.inl (Or.inl ?_)
      rw [List.elem_iff] at ho ⊢
      exact List.mem_append.mpr (Or.inl ho)
    · by_cases hu : fk.referenced_table ∈ input
      · rcases hcov _ hu with hord | hrem
        · refine Or.inl (Or.inl ?_)
          rw [List.elem_iff]
          exact List.mem_append.mpr (Or.inl hord)
        · exfalso
          have hcf : remaining.contains fk.referenced_table = false := by simpa using hnr
          have hct : remaining.contains fk.referenced_table = true := List.elem_iff.mpr hrem
          rw [hct] at hcf
          cases hcf
      · refine Or.inl (Or.inr ?_)
        rw [Bool.not_eq_true']
        exact Bool.eq_false_iff.mpr (fun hc => hu (List.elem_iff.mp hc))
    · exact Or.inr he

/-- Chaining `fkSatisfied` facts into `depOrderOkAux`. -/
theorem depOrderOkAux_of_pointwise (input : List String) (schema : Schema)
    (ordered : List String) :
    ∀ (xs : List String),
      (∀ a ∈ xs, ∀ w, fkSatisfied input (ordered ++ w) schema a = true) →
      ∀ w, depOrderOkAux input schema (ordered ++ w) xs = true := by
  intro xs
  induction xs with
  | nil => intro _ _; rfl
  | cons a rest ih =>
    intro h w
    unfold depOrderOkAux
    rw [Bool.and_eq_true]
    refine ⟨h a (List.mem_cons_self a rest) w, ?_⟩
    rw [List.append_assoc]
    exact ih (fun b hb => h b (List.mem_cons_of_mem a hb)) (w ++ [a])

-- ============ Orderer loop invariant ============

/-- Main loop invariant for claim C2: with a rank function decreasing along
foreign-key edges inside `input`, the loop appends a tail whose every element
satisfies the dependency condition relative to the tables before it. -/
theorem orderLoop_depOk (schema : Schema) (input : List String) (r : String → Nat)
    (hr : ∀ t ∈ input, ∀ fk ∈ tableFks schema t, fk.referenced_table ∈ input →
        fk.referenced_table ≠ t → r fk.referenced_table < r t) :
    ∀ (fuel : Nat) (ordered remaining : List String),
      remaining.length ≤ fuel →
      (∀ t ∈ remaining, t ∈ input) →
      (∀ t ∈ remaining, containsKey schema t = true) →
      (∀ t ∈ input, t ∈ ordered ∨ t ∈ remaining) →
      ∃ tail, orderLoop schema fuel ordered remaining = ordered ++ tail
        ∧ depOrderOkAux input schema ordered tail = true := by
  intro fuel
  induction fuel with
  | zero =>
    intro ordered remaining hlen _ _ _
    have hnil : remaining = [] := List.eq_nil_of_length_eq_zero (Nat.le_zero.mp hlen)
    subst hnil
    exact ⟨[], rfl, rfl⟩
  | succ fuel ih =>
    intro ordered remaining hlen hin hscm hcov
    by_cases hre : remaining.isEmpty = true
    · have hnil := List.isEmpty_iff.mp hre
      subst hnil
      refine ⟨[], ?_, rfl⟩
      simp [orderLoop]
    · have hre' : remaining.isEmpty = false := by simpa using hre
      have hrne : remaining ≠ [] := by
        intro he
        rw [he] at hre'
        cases hre'
      obtain ⟨t, htmem, htmin⟩ := exists_min_rank remaining hrne r
      have htadd : t ∈ orderRound ordered remaining schema := by
        unfold orderRound
        refine List.mem_filter.mpr ⟨htmem, ?_⟩
        obtain ⟨tab, htab⟩ := lookup_some_of_containsKey schema t (hscm t htmem)
        rw [htab, List.all_eq_true]
        intro fk hfk
        simp only [Bool.or_eq_true]
        by_cases hrm : fk.referenced_table ∈ remaining
        · by_cases hft : fk.referenced_table = t
          · exact Or.inr (by simpa using hft)
          · exfalso
            have hfks : fk ∈ tableFks schema t := by
              unfold tableFks
              rw [htab]
              exact hfk
            have hlt := hr t (hin t htmem) fk hfks (hin _ hrm) hft
            exact absurd hlt (Nat.not_lt.mpr (htmin _ hrm))
        · refine Or.inl (Or.inr ?_)
          rw [Bool.not_eq_true']
          exact Bool.eq_false_iff.mpr (fun hc => hrm (List.elem_iff.mp hc))
      have hadd' : (orderRound ordered remaining schema).isEmpty = false := by
        cases hae : orderRound ordered remaining schema with
        | nil => rw [hae] at htadd; cases htadd
        | cons x xs => rfl
      have hstep : orderLoop schema (fuel + 1) ordered remaining
          = orderLoop schema fuel (ordered ++ orderRound ordered remaining schema)
              (remaining.filter
                (fun tn => !(orderRound ordered remaining schema).contains tn)) := by
        simp only [orderLoop, hre', Bool.false_eq_true, if_false, hadd', if_true]
      have hlen' : (remaining.filter
          (fun tn => !(orderRound ordered remaining schema).contains tn)).length ≤ fuel := by
        have hlt : (remaining.filter
            (fun tn => !(orderRound ordered remaining schema).contains tn)).length
            < remaining.length := by
          apply List.length_filter_lt_length_iff_exists.mpr
          refine ⟨t, htmem, ?_⟩
          intro hc
          rw [Bool.not_eq_true'] at hc
          have hct : (orderRound ordered remaining schema).contains t = true :=
            List.elem_iff.mpr htadd
          rw [hct] at hc
          cases hc
        omega
      have hin' : ∀ u ∈ remaining.filter
          (fun tn => !(orderRound ordered remaining schema).contains tn), u ∈ input :=
        fun u hu => hin u (List.mem_filter.mp hu).1
      have hscm' : ∀ u ∈ remaining.filter
          (fun tn => !(orderRound ordered remaining schema).contains tn),
          containsKey schema u = true :=
        fun u hu => hscm u (List.mem_filter.mp hu).1
      have hcov' : ∀ u ∈ input, u ∈ ordered ++ orderRound ordered remaining schema
          ∨ u ∈ remaining.filter
            (fun tn => !(orderRound ordered remaining schema).contains tn) := by
        intro u hu
        rcases hcov u hu with ho | hrm
        · exact Or.inl (List.mem_append.mpr (Or.inl ho))
        · by_cases hc : u ∈ orderRound ordered remaining schema
          · exact Or.inl (List.mem_append.mpr (Or.inr hc))
          · refine Or.inr (List.mem_filter.mpr ⟨hrm, ?_⟩)
            rw [Bool.not_eq_true']
            exact Bool.eq_false_iff.mpr (fun hcc => hc (List.elem_iff.mp hcc))
      obtain ⟨tail', heq', haux'⟩ := ih (ordered ++ orderRound ordered remaining schema)
        (remaining.filter (fun tn => !(orderRound ordered remaining schema).contains tn))
        hlen' hin' hscm' hcov'
      refine ⟨orderRound ordered remaining schema ++ tail', ?_, ?_⟩
      · rw [hstep, heq', List.append_assoc]
      · rw [depOrderOkAux_append input schema (orderRound ordered remaining schema)
          tail' ordered, Bool.and_eq_true]
        constructor
        · have hpt := depOrderOkAux_of_pointwise input schema ordered
            (orderRound ordered remaining schema)
            (fun a ha w => fkSatisfied_of_round input ordered remaining schema hcov ha w) []
          rw [List.append_nil] at hpt
          exact hpt
        · exact haux'

-- ============ Claim C2 ============

/-- C2, counterexample: on the cyclic pair `a -> b -> a` the worklist stalls
immediately and the remainder is flushed, so the output — although a
permutation — violates the claimed foreign-key ordering condition. -/
theorem C2_counterexample :
    order_tables_by_dependency ["a", "b"]
        ⟨[("a", ⟨[], [⟨"x", "b", "id"⟩], []⟩), ("b", ⟨[], [⟨"y", "a", "id"⟩], []⟩)]⟩
      = ["a", "b"]
    ∧ depOrderOk ["a", "b"]
        ⟨[("a", ⟨[], [⟨"x", "b", "id"⟩], []⟩), ("b", ⟨[], [⟨"y", "a", "id"⟩], []⟩)]⟩
        (order_tables_by_dependency ["a", "b"]
          ⟨[("a", ⟨[], [⟨"x", "b", "id"⟩], []⟩), ("b", ⟨[], [⟨"y", "a", "id"⟩], []⟩)]⟩)
      = false := by
  constructor
  · decide
  · decide

/-- C2 (amended): `order_tables_by_dependency` returns a permutation of its
duplicate-free input, and — when the foreign-key dependency relation among
the input tables is acyclic, witnessed by a rank function `r` decreasing
along every foreign-key edge between distinct input tables — every table's
outbound foreign keys point to a table earlier in the output, to a table
outside the input list, or to the table itself.  (On cyclic inputs only the
permutation part is guaranteed: the stalled remainder is appended as-is.) -/
theorem C2_order_tables_by_dependency (tables : List String) (schema : Schema)
    (r : String → Nat) (_hnd : tables.Nodup)
    (hscm : ∀ t ∈ tables, containsKey schema t = true)
    (hr : ∀ t ∈ tables, ∀ fk ∈ tableFks schema t, fk.referenced_table ∈ tables →
        fk.referenced_table ≠ t → r fk.referenced_table < r t) :
    List.Perm (order_tables_by_dependency tables schema) tables
    ∧ depOrderOk tables schema (order_tables_by_dependency tables schema) = true := by
  constructor
  · exact orderLoop_perm schema tables.length [] tables
  · obtain ⟨tail, heq, haux⟩ := orderLoop_depOk schema tables r hr tables.length [] tables
      (Nat.le_refl _) (fun t ht => ht) hscm (fun t ht => Or.inr ht)
    unfold order_tables_by_dependency depOrderOk
    rw [heq]
    exact haux

/-- C2, witness: on the acyclic pair `posts -> users` the orderer emits
`users` before `posts`, a permutation satisfying the dependency condition;
the rank function maps `posts` to 1 and everything else to 0. -/
theorem C2_witness :
    List.Perm
      (order_tables_by_dependency ["posts", "users"]
        ⟨[("posts", ⟨[], [⟨"author_id", "users", "id"⟩], []⟩), ("users", ⟨[], [], []⟩)]⟩)
      ["posts", "users"]
    ∧ depOrderOk ["posts", "users"]
        ⟨[("posts", ⟨[], [⟨"author_id", "users", "id"⟩], []⟩), ("users", ⟨[], [], []⟩)]⟩
        (order_tables_by_dependency ["posts", "users"]
          ⟨[("posts", ⟨[], [⟨"author_id", "users", "id"⟩], []⟩), ("users", ⟨[], [], []⟩)]⟩)
      = true :=
  C2_order_tables_by_dependency ["posts", "users"]
    ⟨[("posts", ⟨[], [⟨"author_id", "users", "id"⟩], []⟩), ("users", ⟨[], [], []⟩)]⟩
    (fun t => if t == "posts" then 1 else 0)
    (by decide) (by decide) (by decide)


end HiveCli
